import Mathlib

/-!
Verification development for the JOURNEY attendance-tracking service.

The definitions below are a shallow embedding of the serverless handler in
`netlify/functions/employees.js` (the feature-complete variant: batch
reconciliation with promotion, DELETE-by-employee, date-scoped PATCH).
JavaScript strings are modelled by Lean `String`; nullable SQL text columns by
`Option String`; the two tables (`employees`, `employee_attendance`) by lists
of rows; SQL statements by pure list transformations.  The Unicode NFD
decomposition used by `normalizeNameKey` is modelled by a character table
covering the precomposed Latin letters relevant to the repository's data
(Spanish/Western-European accents); characters outside the table decompose to
themselves, exactly as NFD leaves unlisted characters unchanged.
-/

/-- JavaScript whitespace as used by `String.prototype.trim` and `\s`,
restricted to the ASCII whitespace characters. -/
def isJsWs (c : Char) : Bool :=
  c = ' ' || c = '\t' || c = '\n' || c = '\r' || c = '\x0b' || c = '\x0c'

/-- Drop leading and trailing whitespace from a character list. -/
def trimChars (cs : List Char) : List Char :=
  ((cs.dropWhile isJsWs).reverse.dropWhile isJsWs).reverse

/-- Model of JavaScript `String.prototype.trim`. -/
def jsTrim (s : String) : String :=
  (trimChars s.toList).asString

/-- Model of JavaScript `str.startsWith(pre)`. -/
def strStartsWith (s pre : String) : Bool :=
  pre.toList.isPrefixOf s.toList

/-- NFD decomposition for the precomposed Latin letters that occur in the
repository's data; every other character decomposes to itself. -/
def nfdChar (c : Char) : List Char :=
  if c = 'á' then ['a', '́'] else
  if c = 'é' then ['e', '́'] else
  if c = 'í' then ['i', '́'] else
  if c = 'ó' then ['o', '́'] else
  if c = 'ú' then ['u', '́'] else
  if c = 'à' then ['a', '̀'] else
  if c = 'è' then ['e', '̀'] else
  if c = 'ì' then ['i', '̀'] else
  if c = 'ò' then ['o', '̀'] else
  if c = 'ù' then ['u', '̀'] else
  if c = 'â' then ['a', '̂'] else
  if c = 'ê' then ['e', '̂'] else
  if c = 'î' then ['i', '̂'] else
  if c = 'ô' then ['o', '̂'] else
  if c = 'û' then ['u', '̂'] else
  if c = 'ä' then ['a', '̈'] else
  if c = 'ë' then ['e', '̈'] else
  if c = 'ï' then ['i', '̈'] else
  if c = 'ö' then ['o', '̈'] else
  if c = 'ü' then ['u', '̈'] else
  if c = 'ã' then ['a', '̃'] else
  if c = 'õ' then ['o', '̃'] else
  if c = 'ñ' then ['n', '̃'] else
  if c = 'ç' then ['c', '̧'] else
  if c = 'Á' then ['A', '́'] else
  if c = 'É' then ['E', '́'] else
  if c = 'Í' then ['I', '́'] else
  if c = 'Ó' then ['O', '́'] else
  if c = 'Ú' then ['U', '́'] else
  if c = 'Ä' then ['A', '̈'] else
  if c = 'Ë' then ['E', '̈'] else
  if c = 'Ï' then ['I', '̈'] else
  if c = 'Ö' then ['O', '̈'] else
  if c = 'Ü' then ['U', '̈'] else
  if c = 'Ã' then ['A', '̃'] else
  if c = 'Õ' then ['O', '̃'] else
  if c = 'Ñ' then ['N', '̃'] else
  if c = 'Ç' then ['C', '̧'] else
  [c]

/-- Combining diacritical marks, the range stripped by
`replace(/[̀-ͯ]/g, '')` in `normalizeNameKey`. -/
def isCombiningMark (c : Char) : Bool :=
  0x300 ≤ c.toNat && c.toNat ≤ 0x36F

/-- Split a character list into maximal whitespace-free words.  Trimming and
then collapsing whitespace runs to single spaces (the
`.trim().replace(/\s+/g, ' ')` tail of `normalizeNameKey`) is the same as
re-joining these words with single spaces. -/
def wsWords : List Char → List Char → List (List Char)
  | [], acc => if acc.isEmpty then [] else [acc.reverse]
  | c :: rest, acc =>
    if isJsWs c then
      if acc.isEmpty then wsWords rest [] else acc.reverse :: wsWords rest []
    else wsWords rest (c :: acc)

/-- Model of `normalizeNameKey` from `employees.js`: NFD-decompose, strip combining
marks, lower-case, trim, collapse internal whitespace to single spaces. -/
def normalizeNameKey (name : String) : String :=
  let decomposed := (name.toList.map nfdChar).flatten
  let stripped := decomposed.filter (fun c => !isCombiningMark c)
  let lowered := stripped.map Char.toLower
  (List.intercalate [' '] (wsWords lowered [])).asString

/-- Model of `toNullableText` from `employees.js`: trim, empty becomes SQL NULL. -/
def toNullableText (s : String) : Option String :=
  let t := jsTrim s
  if t = "" then none else some t


/-!
Calendar arithmetic modelling the JavaScript `Date` object in UTC mode.
`new Date(Date.UTC(y, m, d))` normalizes out-of-range month/day by rolling
them over, and `getUTCFullYear`/`getUTCMonth`/`getUTCDate` read the civil
components back.  `daysFromCivil`/`civilFromDays` are the standard proleptic
Gregorian day-count conversions.
-/

/-- Day count since 1970-01-01 of a civil date (proleptic Gregorian). -/
def daysFromCivil (y m d : Int) : Int :=
  let yy := if m ≤ 2 then y - 1 else y
  let era := Int.fdiv yy 400
  let yoe := yy - era * 400
  let mp := if m > 2 then m - 3 else m + 9
  let doy := Int.fdiv (153 * mp + 2) 5 + d - 1
  let doe := yoe * 365 + Int.fdiv yoe 4 - Int.fdiv yoe 100 + doy
  era * 146097 + doe - 719468

/-- Civil date (year, month, day) of a day count since 1970-01-01. -/
def civilFromDays (z0 : Int) : Int × Int × Int :=
  let z := z0 + 719468
  let era := Int.fdiv z 146097
  let doe := z - era * 146097
  let yoe := Int.fdiv (doe - Int.fdiv doe 1460 + Int.fdiv doe 36524 - Int.fdiv doe 146096) 365
  let y := yoe + era * 400
  let doy := doe - (365 * yoe + Int.fdiv yoe 4 - Int.fdiv yoe 100)
  let mp := Int.fdiv (5 * doy + 2) 153
  let d := doy - Int.fdiv (153 * mp + 2) 5 + 1
  let m := if mp < 10 then mp + 3 else mp - 9
  (if m ≤ 2 then y + 1 else y, m, d)

/-- Model of `new Date(Date.UTC(year, monthIndex, day))` followed by reading the UTC
components back: months and days roll over, and the result is the normalized
civil (year, month, day).  The caller applies `Date.UTC`'s two-digit-year
rule separately. -/
def jsUtcComponents (year monthIndex day : Int) : Int × Int × Int :=
  let ym := year * 12 + monthIndex
  let y := Int.ediv ym 12
  let m := Int.emod ym 12
  civilFromDays (daysFromCivil y (m + 1) 1 + (day - 1))

/-- Decimal digit value of a character. -/
def digitVal (c : Char) : Nat := c.toNat - '0'.toNat

/-- The anchored `DATE_REGEX` `^(\d{4})-(\d{2})-(\d{2})$` from `employees.js`:
returns the three numeric capture groups on a match. -/
def matchDateRegex (s : String) : Option (Nat × Nat × Nat) :=
  match s.toList with
  | [y1, y2, y3, y4, s1, m1, m2, s2, d1, d2] =>
    if y1.isDigit && y2.isDigit && y3.isDigit && y4.isDigit && s1 = '-' &&
       m1.isDigit && m2.isDigit && s2 = '-' && d1.isDigit && d2.isDigit then
      some (((digitVal y1 * 10 + digitVal y2) * 10 + digitVal y3) * 10 + digitVal y4,
            digitVal m1 * 10 + digitVal m2,
            digitVal d1 * 10 + digitVal d2)
    else none
  | _ => none

/-- A date accepted by `resolveDateFromQuery`, kept as civil components. -/
structure ResolvedDate where
  year : Int
  month : Int
  day : Int
deriving Repr, DecidableEq

/-- Model of `formatDateKey` from `employees.js`: year unpadded, month/day padded to
two digits. -/
def pad2 (n : Int) : String :=
  if 0 ≤ n ∧ n < 10 then "0" ++ toString n else toString n

/-- The `key` field produced by `resolveDateFromQuery`. -/
def dateKey (rd : ResolvedDate) : String :=
  toString rd.year ++ "-" ++ pad2 rd.month ++ "-" ++ pad2 rd.day

/-- Model of `resolveDateFromQuery` from `employees.js`: empty input resolves to
`today`; otherwise the input must match `DATE_REGEX` and its components must
survive reconstruction through `Date.UTC` (which maps years 0–99 to
1900–1999 and rolls over out-of-range months and days) unchanged. -/
def resolveDateFromQuery (today : ResolvedDate) (rawDate : String) : Option ResolvedDate :=
  if rawDate = "" then some today
  else
    match matchDateRegex rawDate with
    | none => none
    | some (yn, mn, dn) =>
      let year : Int := yn
      let month : Int := mn
      let day : Int := dn
      let yAdj := if 0 ≤ year ∧ year ≤ 99 then year + 1900 else year
      let rt := jsUtcComponents yAdj (month - 1) day
      if rt.1 = year ∧ rt.2.1 = month ∧ rt.2.2 = day then
        some ⟨year, month, day⟩
      else none


/-!
Data model: the `employees` and `employee_attendance` tables.
-/

/-- A row of the `employees` table. -/
structure Employee where
  id : String
  name : String
  position : Option String
  department : Option String
  checked_in : Bool
deriving Repr, DecidableEq

/-- A row of the `employee_attendance` table; `attendance_date` is the
`YYYY-MM-DD` key string. -/
structure AttendanceRecord where
  employee_id : String
  attendance_date : String
  checked_in : Bool
deriving Repr, DecidableEq

/-- The persistent state: both tables, in physical row order. -/
structure DB where
  employees : List Employee
  attendance : List AttendanceRecord
deriving Repr, DecidableEq

/-- An element of the incoming `body.employees` array of a batch POST.
`none` models an absent (or non-string / non-boolean) JSON field. -/
structure RawRecord where
  id : Option String
  name : Option String
  position : Option String
  department : Option String
  checkedIn : Option Bool
deriving Repr, DecidableEq

/-!
The JavaScript `Map`s used by the batch classifier, modelled as association
lists: `set` replaces in place or appends, preserving insertion order.
-/

/-- Model of `Map.prototype.get`. -/
def mapLookup : List (String × Employee) → String → Option Employee
  | [], _ => none
  | p :: ps, k => if p.1 = k then some p.2 else mapLookup ps k

/-- Model of `Map.prototype.set`: replace the existing binding in place, else append. -/
def mapSet : List (String × Employee) → String → Employee → List (String × Employee)
  | [], k, v => [(k, v)]
  | p :: ps, k, v => if p.1 = k then (k, v) :: ps else p :: mapSet ps k v

/-- Building `existingById`: every snapshot row keyed by id (later rows would
overwrite earlier ones, as `Map.set` does). -/
def buildById (rows : List Employee) : List (String × Employee) :=
  rows.foldl (fun m r => mapSet m r.id r) []

/-- One step of building `existingByName`: first row wins per non-empty
normalized name. -/
def byNameStep (m : List (String × Employee)) (r : Employee) : List (String × Employee) :=
  if normalizeNameKey r.name ≠ "" ∧ (mapLookup m (normalizeNameKey r.name)).isNone then
    m ++ [(normalizeNameKey r.name, r)]
  else m

/-- Building `existingByName` from the snapshot. -/
def buildByName (rows : List Employee) : List (String × Employee) :=
  rows.foldl byNameStep []

/-!
Classification stage of the batch reconcile (`employees.js`, POST branch,
classification loop): each incoming record is routed to exactly one of
update-by-id, promotion, update-by-name, insert, or skip.
-/

/-- An entry of `updatesById` / `updatesByName`: the trimmed incoming fields
plus the matched existing row. -/
structure UpdateItem where
  id : String
  name : String
  position : String
  department : String
  checkedIn : Bool
  hasChecked : Bool
  existing : Employee
deriving Repr, DecidableEq

/-- An entry of `promotions`. -/
structure PromotionItem where
  oldId : String
  newId : String
  name : String
  position : String
  department : String
  checkedIn : Bool
  hasChecked : Bool
  existing : Employee
deriving Repr, DecidableEq

/-- An entry of `inserts`. -/
structure InsertItem where
  id : String
  name : String
  position : String
  department : String
  checkedIn : Bool
deriving Repr, DecidableEq

/-- The classifier's mutable state: the two lookup maps, the two
already-claimed sets, the four action lists and the skip counter.
`genCount` counts `generateManualId()` calls made so far. -/
structure ClassState where
  byId : List (String × Employee)
  byName : List (String × Employee)
  seenIds : List String
  seenNames : List String
  updatesById : List UpdateItem
  updatesByName : List UpdateItem
  promotions : List PromotionItem
  inserts : List InsertItem
  skipped : Nat
  genCount : Nat
deriving Repr, DecidableEq

/-- One iteration of the classification loop.  `gen k` stands for the value
of the k-th `generateManualId()` call of this request. -/
def classifyStep (gen : Nat → String) (s : ClassState) (raw : RawRecord) : ClassState :=
  let id := jsTrim (raw.id.getD "")
  let name := jsTrim (raw.name.getD "")
  if name = "" then { s with skipped := s.skipped + 1 }
  else
    let position := jsTrim (raw.position.getD "")
    let department := jsTrim (raw.department.getD "")
    let hasChecked := raw.checkedIn.isSome
    let checkedIn := raw.checkedIn.getD false
    let nameKey := normalizeNameKey name
    if id ≠ "" then
      if id ∈ s.seenIds then { s with skipped := s.skipped + 1 }
      else
        let s1 := { s with seenIds := s.seenIds ++ [id] }
        match mapLookup s1.byId id with
        | some ex =>
          { s1 with
            updatesById := s1.updatesById ++ [⟨id, name, position, department, checkedIn, hasChecked, ex⟩],
            byName := mapSet s1.byName nameKey { ex with name := name } }
        | none =>
          match (if nameKey ≠ "" then mapLookup s1.byName nameKey else none) with
          | some exN =>
            if exN.id ≠ "" ∧ strStartsWith exN.id "manual-" then
              { s1 with
                promotions := s1.promotions ++ [⟨exN.id, id, name, position, department, checkedIn, hasChecked, exN⟩],
                byId := mapSet s1.byId id { exN with id := id },
                byName := mapSet s1.byName nameKey { exN with id := id } }
            else
              { s1 with
                updatesByName := s1.updatesByName ++ [⟨exN.id, name, position, department, checkedIn, hasChecked, exN⟩] }
          | none =>
            { s1 with inserts := s1.inserts ++ [⟨id, name, position, department, checkedIn⟩] }
    else
      if nameKey ≠ "" ∧ nameKey ∈ s.seenNames then { s with skipped := s.skipped + 1 }
      else
        let s1 := if nameKey ≠ "" then { s with seenNames := s.seenNames ++ [nameKey] } else s
        match (if nameKey ≠ "" then mapLookup s1.byName nameKey else none) with
        | some exN =>
          { s1 with
            updatesByName := s1.updatesByName ++ [⟨exN.id, name, position, department, checkedIn, hasChecked, exN⟩] }
        | none =>
          { s1 with
            inserts := s1.inserts ++ [⟨gen s1.genCount, name, position, department, checkedIn⟩],
            genCount := s1.genCount + 1 }

/-- The classifier's initial state for a registry snapshot. -/
def initState (rows : List Employee) : ClassState :=
  ⟨buildById rows, buildByName rows, [], [], [], [], [], [], 0, 0⟩

/-- The whole classification loop over the incoming array. -/
def classify (gen : Nat → String) (rows : List Employee) (incoming : List RawRecord) : ClassState :=
  incoming.foldl (classifyStep gen) (initState rows)

/-!
Executor stage: the transaction body of the batch POST, applied in source
order: update-by-id, update-by-name, promotions, bulk insert-or-ignore.
-/

/-- JavaScript `a || b` on a string and a nullable string (`null` and `''`
are both falsy). -/
def jsOrStr (a : String) (b : Option String) : String :=
  if a = "" then b.getD "" else a

/-- JavaScript `a || b` on two strings. -/
def strFallback (a b : String) : String :=
  if a = "" then b else a

/-- Merge rule `item.name || item.existing.name || ''`. -/
def mergedName (nm : String) (ex : Employee) : String :=
  strFallback (strFallback nm ex.name) ""

/-- Merge rule `item.position || item.existing.position || ''`. -/
def mergedPosition (p : String) (ex : Employee) : String :=
  strFallback (jsOrStr p ex.position) ""

/-- Merge rule `item.department || item.existing.department || ''`. -/
def mergedDepartment (d : String) (ex : Employee) : String :=
  strFallback (jsOrStr d ex.department) ""

/-- Merge rule `item.hasChecked ? item.checkedIn : Boolean(item.existing.checked_in)`. -/
def mergedChecked (hasChecked checkedIn : Bool) (ex : Employee) : Bool :=
  if hasChecked then checkedIn else ex.checked_in

/-- The `UPDATE employees SET ... WHERE id = item.id` statement of the
update-by-id / update-by-name executors. -/
def applyUpdateItem (emps : List Employee) (it : UpdateItem) : List Employee :=
  emps.map fun e =>
    if e.id = it.id then
      { e with
        name := mergedName it.name it.existing,
        position := toNullableText (mergedPosition it.position it.existing),
        department := toNullableText (mergedDepartment it.department it.existing),
        checked_in := mergedChecked it.hasChecked it.checkedIn it.existing }
    else e

/-- A whole update loop (used for both `updatesById` and `updatesByName`). -/
def applyUpdates (emps : List Employee) (items : List UpdateItem) : List Employee :=
  items.foldl applyUpdateItem emps

/-- Model of `INSERT ... ON CONFLICT (id) DO UPDATE SET ...`: replace the row with the
same id, else append. -/
def upsertEmployee (emps : List Employee) (row : Employee) : List Employee :=
  if emps.any (fun e => e.id = row.id) then
    emps.map (fun e => if e.id = row.id then row else e)
  else emps ++ [row]

/-- The three statements of the promotion executor: upsert the new-id row,
repoint the attendance rows, delete the old-id row. -/
def applyPromotion (db : DB) (it : PromotionItem) : DB :=
  let row : Employee :=
    ⟨it.newId,
     mergedName it.name it.existing,
     toNullableText (mergedPosition it.position it.existing),
     toNullableText (mergedDepartment it.department it.existing),
     mergedChecked it.hasChecked it.checkedIn it.existing⟩
  let emps := upsertEmployee db.employees row
  let att := db.attendance.map fun a =>
    if a.employee_id = it.oldId then { a with employee_id := it.newId } else a
  ⟨emps.filter (fun e => e.id ≠ it.oldId), att⟩

/-- The bulk `INSERT ... ON CONFLICT (id) DO NOTHING RETURNING id`: each row
is appended unless its id is already present (in the table or among the rows
inserted earlier in the same statement); returns the new table and the number
of rows actually inserted. -/
def insertIgnore (emps : List Employee) (items : List InsertItem) : List Employee × Nat :=
  items.foldl
    (fun acc it =>
      if acc.1.any (fun e => e.id = it.id) then acc
      else (acc.1 ++ [⟨it.id, it.name, toNullableText it.position, toNullableText it.department, it.checkedIn⟩],
            acc.2 + 1))
    (emps, 0)

/-- The five counters of the batch POST response. -/
structure BatchCounts where
  inserted : Nat
  skipped : Nat
  updated : Nat
  matchedByName : Nat
  promoted : Nat
deriving Repr, DecidableEq

/-- The whole batch reconcile: an empty incoming array short-circuits to a
no-op; otherwise classification followed by the four-phase transaction. -/
def reconcileBatch (gen : Nat → String) (db : DB) (incoming : List RawRecord) : BatchCounts × DB :=
  if incoming.isEmpty then (⟨0, 0, 0, 0, 0⟩, db)
  else
    let st := classify gen db.employees incoming
    let emps1 := applyUpdates db.employees st.updatesById
    let emps2 := applyUpdates emps1 st.updatesByName
    let db2 := st.promotions.foldl applyPromotion ⟨emps2, db.attendance⟩
    let ins := insertIgnore db2.employees st.inserts
    (⟨ins.2,
      st.skipped + (st.inserts.length - ins.2),
      st.updatesById.length,
      st.updatesByName.length,
      st.promotions.length⟩,
     ⟨ins.1, db2.attendance⟩)

/-!
Single-employee creation (POST with a `body.employee` payload).
-/

/-- The `body.employee` payload of a single-employee POST. -/
structure SinglePayload where
  name : Option String
  position : Option String
  department : Option String
deriving Repr, DecidableEq

/-- Outcome of single-employee creation. -/
inductive CreateResult where
  | validationError
  | conflict
  | created (e : Employee)
deriving Repr, DecidableEq

/-- Model of the single-employee POST branch, `createEmployee`: empty trimmed name is a 400; a non-empty normalized
name colliding with any existing row's normalized name is a 409; otherwise a
row with the synthesized `manualId` is inserted with `checked_in = FALSE`. -/
def createEmployee (db : DB) (manualId : String) (p : SinglePayload) : CreateResult × DB :=
  let name := jsTrim (p.name.getD "")
  if name = "" then (.validationError, db)
  else
    let normalizedName := normalizeNameKey name
    if normalizedName ≠ "" ∧ db.employees.any (fun r => normalizeNameKey r.name = normalizedName) then
      (.conflict, db)
    else
      let row : Employee :=
        ⟨manualId, name, toNullableText (p.position.getD ""), toNullableText (p.department.getD ""), false⟩
      (.created row, ⟨db.employees ++ [row], db.attendance⟩)

/-!
Date-scoped read and write operations (GET roster, PATCH mark, DELETE
clear-date, DELETE by employee).
-/

/-- A roster row as shaped by `mapRow`: nullable columns become `''`. -/
structure RosterRow where
  id : String
  name : String
  position : String
  department : String
  checkedIn : Bool
  attendanceRecorded : Bool
deriving Repr, DecidableEq

/-- The attendance row joined to an employee for one date key, if any. -/
def findAttendance (att : List AttendanceRecord) (eid key : String) : Option AttendanceRecord :=
  att.find? (fun a => a.employee_id = eid ∧ a.attendance_date = key)

/-- Insertion into a name-ordered list (the `ORDER BY e.name ASC` of the
roster query). -/
def insertByName (e : Employee) : List Employee → List Employee
  | [] => [e]
  | x :: xs => if e.name ≤ x.name then e :: x :: xs else x :: insertByName e xs

/-- Sort the employees table by name. -/
def sortByName (rows : List Employee) : List Employee :=
  rows.foldr insertByName []

/-- One row of the roster query: `COALESCE(a.checked_in, FALSE)` and
`a.employee_id IS NOT NULL` from the left join. -/
def rosterRowFor (att : List AttendanceRecord) (key : String) (e : Employee) : RosterRow :=
  match findAttendance att e.id key with
  | some a => ⟨e.id, e.name, e.position.getD "", e.department.getD "", a.checked_in, true⟩
  | none => ⟨e.id, e.name, e.position.getD "", e.department.getD "", false, false⟩

/-- Outcome of the GET roster request. -/
inductive RosterResult where
  | badDate
  | ok (rows : List RosterRow) (hasAttendanceRecords : Bool) (date : String)
deriving Repr, DecidableEq

/-- The GET branch: resolve the (trimmed) date, left-join the registry with
that date's attendance, report whether any attendance row exists. -/
def getRoster (today : ResolvedDate) (db : DB) (rawDate : String) : RosterResult :=
  match resolveDateFromQuery today (jsTrim rawDate) with
  | none => .badDate
  | some rd =>
    let key := dateKey rd
    let rows := (sortByName db.employees).map (rosterRowFor db.attendance key)
    .ok rows (rows.any (·.attendanceRecorded)) key

/-- The PATCH request body; `none` models an absent or wrongly-typed field. -/
structure PatchBody where
  id : Option String
  checkedIn : Option Bool
  date : Option String
deriving Repr, DecidableEq

/-- Outcome of the PATCH request. -/
inductive PatchResult where
  | badRequest
  | badDate
  | notFound
  | ok (e : RosterRow)
deriving Repr, DecidableEq

/-- The attendance upsert `ON CONFLICT (employee_id, attendance_date) DO
UPDATE SET checked_in = EXCLUDED.checked_in`. -/
def upsertAttendance (att : List AttendanceRecord) (eid key : String) (ck : Bool) : List AttendanceRecord :=
  if att.any (fun a => a.employee_id = eid ∧ a.attendance_date = key) then
    att.map fun a =>
      if a.employee_id = eid ∧ a.attendance_date = key then { a with checked_in := ck } else a
  else att ++ [⟨eid, key, ck⟩]

/-- The PATCH branch (`markAttendance`): required-field validation, date
validation, employee-existence check (404 before any write), attendance
upsert, mirror of the flag onto the employee row, and the final single-row
select with `TRUE AS attendance_recorded`. -/
def markAttendance (today : ResolvedDate) (db : DB) (body : PatchBody) : PatchResult × DB :=
  let id := jsTrim (body.id.getD "")
  let dateParam := jsTrim (body.date.getD "")
  match body.checkedIn with
  | none => (.badRequest, db)
  | some ck =>
    if id = "" ∨ dateParam = "" then (.badRequest, db)
    else
      match resolveDateFromQuery today dateParam with
      | none => (.badDate, db)
      | some rd =>
        if db.employees.any (fun e => e.id = id) then
          let key := dateKey rd
          let att := upsertAttendance db.attendance id key ck
          let emps := db.employees.map fun e =>
            if e.id = id then { e with checked_in := ck } else e
          let db2 : DB := ⟨emps, att⟩
          match emps.find? (fun e => e.id = id) with
          | some emp =>
            let ckRow := ((findAttendance att id key).map (·.checked_in)).getD false
            (.ok ⟨emp.id, emp.name, emp.position.getD "", emp.department.getD "", ckRow, true⟩, db2)
          | none => (.notFound, db2)
        else (.notFound, db)

/-- Outcome of the DELETE clear-date branch. -/
inductive ClearResult where
  | dateRequired
  | badDate
  | ok (deleted : Nat)
deriving Repr, DecidableEq

/-- The DELETE clear-date branch: delete every attendance row of the date,
then reset `checked_in` on each affected employee. -/
def clearDate (today : ResolvedDate) (db : DB) (rawDate : String) : ClearResult × DB :=
  let dateParam := jsTrim rawDate
  if dateParam = "" then (.dateRequired, db)
  else
    match resolveDateFromQuery today dateParam with
    | none => (.badDate, db)
    | some rd =>
      let key := dateKey rd
      let deleted := db.attendance.filter (fun a => a.attendance_date = key)
      let remaining := db.attendance.filter (fun a => ¬a.attendance_date = key)
      let ids := deleted.map (·.employee_id)
      let emps := db.employees.map fun e =>
        if ids.contains e.id then { e with checked_in := false } else e
      (.ok deleted.length, ⟨emps, remaining⟩)

/-- Outcome of the DELETE-by-employee branch. -/
inductive DeleteEmpResult where
  | badDate
  | notFound
  | ok (removed : Nat)
deriving Repr, DecidableEq

/-- The DELETE-by-employee branch: an invalid supplied date is rejected
before any write; deletion cascades to the employee's attendance rows. -/
def deleteEmployee (today : ResolvedDate) (db : DB) (employeeId : String) (rawDate : String) : DeleteEmpResult × DB :=
  let eid := jsTrim employeeId
  let rawD := jsTrim rawDate
  if rawD ≠ "" ∧ (resolveDateFromQuery today rawD).isNone then (.badDate, db)
  else
    let removed := db.employees.filter (fun e => e.id = eid)
    if removed.isEmpty then (.notFound, db)
    else
      (.ok removed.length,
       ⟨db.employees.filter (fun e => ¬e.id = eid),
        db.attendance.filter (fun a => ¬a.employee_id = eid)⟩)

/-- The registry never holds two employees whose normalized names are equal
and non-empty (the name-collision invariant of the spec, with the empty
normalized key exempted because `employees.js` skips the conflict check for
it). -/
def NoNameCollision (db : DB) : Prop :=
  db.employees.Pairwise fun a b =>
    normalizeNameKey a.name ≠ normalizeNameKey b.name ∨ normalizeNameKey a.name = ""

instance (db : DB) : Decidable (NoNameCollision db) := by
  unfold NoNameCollision
  infer_instance

/-!
Association-map lemmas for the classifier's two lookup maps.
-/

theorem mapLookup_append (l₁ l₂ : List (String × Employee)) (k : String) :
    mapLookup (l₁ ++ l₂) k =
      match mapLookup l₁ k with
      | some v => some v
      | none => mapLookup l₂ k := by
  induction l₁ with
  | nil => simp [mapLookup]
  | cons p ps ih =>
    by_cases h : p.1 = k <;> simp [mapLookup, h, ih]

theorem mapLookup_single_ne (k k' : String) (v : Employee) (h : k' ≠ k) :
    mapLookup [(k, v)] k' = none := by
  simp [mapLookup, Ne.symm h]

theorem mapLookup_set_self (m : List (String × Employee)) (k : String) (v : Employee) :
    mapLookup (mapSet m k v) k = some v := by
  induction m with
  | nil => simp [mapSet, mapLookup]
  | cons p ps ih =>
    by_cases h : p.1 = k <;> simp [mapSet, mapLookup, h, ih]

theorem mapLookup_set_other (m : List (String × Employee)) (k k' : String) (v : Employee)
    (h : k' ≠ k) : mapLookup (mapSet m k v) k' = mapLookup m k' := by
  have hk : ¬k = k' := Ne.symm h
  induction m with
  | nil => simp [mapSet, mapLookup, hk]
  | cons p ps ih =>
    obtain ⟨pk, pv⟩ := p
    by_cases hp : pk = k
    · subst hp
      simp [mapSet, mapLookup, hk]
    · simp only [mapSet, hp, if_neg, if_false, mapLookup]
      by_cases hp' : pk = k' <;> simp [hp', ih]

theorem foldl_mapSet_lookup_nomem (rows : List Employee) (k : String)
    (h : ∀ r ∈ rows, r.id ≠ k) :
    ∀ acc, mapLookup (rows.foldl (fun m r => mapSet m r.id r) acc) k = mapLookup acc k := by
  induction rows with
  | nil => intro acc; rfl
  | cons r rs ih =>
    intro acc
    have hr : r.id ≠ k := h r (by simp)
    have hrs : ∀ x ∈ rs, x.id ≠ k := fun x hx => h x (by simp [hx])
    simp only [List.foldl_cons]
    rw [ih hrs, mapLookup_set_other _ _ _ _ (Ne.symm hr)]

theorem buildById_lookup_none (rows : List Employee) (k : String)
    (h : ∀ r ∈ rows, r.id ≠ k) : mapLookup (buildById rows) k = none := by
  unfold buildById
  rw [foldl_mapSet_lookup_nomem rows k h []]
  rfl

theorem foldl_mapSet_lookup_mem (rows : List Employee) (e : Employee)
    (hnd : (rows.map Employee.id).Nodup) (hm : e ∈ rows) :
    ∀ acc, mapLookup (rows.foldl (fun m r => mapSet m r.id r) acc) e.id = some e := by
  induction rows with
  | nil => cases hm
  | cons r rs ih =>
    intro acc
    simp only [List.map_cons, List.nodup_cons] at hnd
    simp only [List.foldl_cons]
    rcases List.mem_cons.mp hm with he | he
    · subst he
      have hrs : ∀ x ∈ rs, x.id ≠ e.id := by
        intro x hx hcon
        exact hnd.1 (hcon ▸ List.mem_map_of_mem Employee.id hx)
      rw [foldl_mapSet_lookup_nomem rs e.id hrs, mapLookup_set_self]
    · exact ih hnd.2 he _

theorem buildById_lookup_mem (rows : List Employee) (e : Employee)
    (hnd : (rows.map Employee.id).Nodup) (hm : e ∈ rows) :
    mapLookup (buildById rows) e.id = some e :=
  foldl_mapSet_lookup_mem rows e hnd hm []

theorem byName_fold_preserve (rs : List Employee) (k : String) (v : Employee) :
    ∀ acc, mapLookup acc k = some v → mapLookup (rs.foldl byNameStep acc) k = some v := by
  induction rs with
  | nil => intro acc h; exact h
  | cons r rs ih =>
    intro acc h
    simp only [List.foldl_cons]
    apply ih
    unfold byNameStep
    split
    · rw [mapLookup_append, h]
    · exact h

theorem byName_fold_some (rows : List Employee) (k : String) (e : Employee)
    (hk : k ≠ "") (he : normalizeNameKey e.name = k) :
    ∀ acc, e ∈ rows → (∀ r ∈ rows, normalizeNameKey r.name = k → r = e) →
      mapLookup acc k = none → mapLookup (rows.foldl byNameStep acc) k = some e := by
  induction rows with
  | nil => intro acc hm; cases hm
  | cons r rs ih =>
    intro acc hm hu hacc
    simp only [List.foldl_cons]
    by_cases hr : normalizeNameKey r.name = k
    · have hre : r = e := hu r (by simp) hr
      subst hre
      have hstep : byNameStep acc r = acc ++ [(k, r)] := by
        unfold byNameStep
        rw [he, if_pos ⟨hk, by simp [hacc]⟩]
      rw [hstep]
      apply byName_fold_preserve
      rw [mapLookup_append, hacc]
      simp [mapLookup]
    · have hm' : e ∈ rs := by
        rcases List.mem_cons.mp hm with h | h
        · exact absurd (h ▸ he) hr
        · exact h
      have hacc' : mapLookup (byNameStep acc r) k = none := by
        unfold byNameStep
        split
        · rw [mapLookup_append, hacc, mapLookup_single_ne _ _ _ (fun hh => hr hh.symm)]
        · exact hacc
      exact ih _ hm' (fun x hx hxk => hu x (by simp [hx]) hxk) hacc'

theorem byName_fold_none (rows : List Employee) (k : String)
    (h : ∀ r ∈ rows, normalizeNameKey r.name ≠ k) :
    ∀ acc, mapLookup acc k = none → mapLookup (rows.foldl byNameStep acc) k = none := by
  induction rows with
  | nil => intro acc hacc; exact hacc
  | cons r rs ih =>
    intro acc hacc
    simp only [List.foldl_cons]
    apply ih (fun x hx => h x (by simp [hx]))
    unfold byNameStep
    split
    · rw [mapLookup_append, hacc, mapLookup_single_ne _ _ _ (fun hh => h r (by simp) hh.symm)]
    · exact hacc

theorem buildByName_some (rows : List Employee) (k : String) (e : Employee)
    (hk : k ≠ "") (he : normalizeNameKey e.name = k) (hm : e ∈ rows)
    (hu : ∀ r ∈ rows, normalizeNameKey r.name = k → r = e) :
    mapLookup (buildByName rows) k = some e :=
  byName_fold_some rows k e hk he [] hm hu rfl

theorem buildByName_none (rows : List Employee) (k : String)
    (h : ∀ r ∈ rows, normalizeNameKey r.name ≠ k) :
    mapLookup (buildByName rows) k = none :=
  byName_fold_none rows k h [] rfl

/-!
Roster lemmas.
-/

theorem findAttendance_date_ne (att : List AttendanceRecord) (key eid : String)
    (h : ∀ a ∈ att, a.attendance_date ≠ key) : findAttendance att eid key = none := by
  unfold findAttendance
  rw [List.find?_eq_none]
  intro a ha
  simp only [decide_eq_true_eq]
  intro hcon
  exact h a ha hcon.2

theorem rosterRowFor_no_record (att : List AttendanceRecord) (key : String) (e : Employee)
    (h : findAttendance att e.id key = none) :
    rosterRowFor att key e = ⟨e.id, e.name, e.position.getD "", e.department.getD "", false, false⟩ := by
  unfold rosterRowFor
  rw [h]

theorem getRoster_no_records (today : ResolvedDate) (db : DB) (D : String) (rd : ResolvedDate)
    (hres : resolveDateFromQuery today (jsTrim D) = some rd)
    (hnone : ∀ a ∈ db.attendance, a.attendance_date ≠ dateKey rd) :
    ∃ rows, getRoster today db D = RosterResult.ok rows false (dateKey rd) ∧
      ∀ r ∈ rows, r.checkedIn = false ∧ r.attendanceRecorded = false := by
  have hAtt : ∀ e : Employee, rosterRowFor db.attendance (dateKey rd) e =
      ⟨e.id, e.name, e.position.getD "", e.department.getD "", false, false⟩ :=
    fun e => rosterRowFor_no_record _ _ _ (findAttendance_date_ne _ _ _ hnone)
  refine ⟨(sortByName db.employees).map (rosterRowFor db.attendance (dateKey rd)), ?_, ?_⟩
  · simp only [getRoster, hres]
    have hfalse : (((sortByName db.employees).map
        (rosterRowFor db.attendance (dateKey rd))).any fun r => r.attendanceRecorded) = false := by
      rw [List.any_eq_false]
      intro x hx
      rw [List.mem_map] at hx
      obtain ⟨e, _, hxe⟩ := hx
      rw [hAtt e] at hxe
      subst hxe
      simp
    rw [hfalse]
  · intro r hr
    rw [List.mem_map] at hr
    obtain ⟨e, _, hre⟩ := hr
    rw [hAtt e] at hre
    subst hre
    exact ⟨rfl, rfl⟩

/-- C6: for every valid date D, `clearDate(D)` followed by `getRoster(D)`
returns every employee with checked-in false and attendance-recorded false,
and the roster's has-attendance-records flag is false. -/
theorem C6_clear_then_roster (today : ResolvedDate) (db : DB) (D : String)
    (rd : ResolvedDate) (hne : jsTrim D ≠ "")
    (hres : resolveDateFromQuery today (jsTrim D) = some rd) :
    (clearDate today db D).1 =
      ClearResult.ok ((db.attendance.filter fun a => a.attendance_date = dateKey rd).length) ∧
    ∃ rows, getRoster today (clearDate today db D).2 D = RosterResult.ok rows false (dateKey rd) ∧
      ∀ r ∈ rows, r.checkedIn = false ∧ r.attendanceRecorded = false := by
  have hclear : clearDate today db D =
      (ClearResult.ok ((db.attendance.filter fun a => a.attendance_date = dateKey rd).length),
       ⟨db.employees.map fun e =>
          if (((db.attendance.filter fun a => a.attendance_date = dateKey rd)).map
              AttendanceRecord.employee_id).contains e.id then { e with checked_in := false }
          else e,
        db.attendance.filter fun a => ¬a.attendance_date = dateKey rd⟩) := by
    simp only [clearDate]
    rw [if_neg hne]
    simp only [hres]
  refine ⟨by rw [hclear], ?_⟩
  apply getRoster_no_records today _ D rd hres
  rw [hclear]
  intro a ha
  rw [List.mem_filter] at ha
  simpa using ha.2

theorem C6_clear_then_roster_witness :
    jsTrim "2024-04-30" ≠ "" ∧
    resolveDateFromQuery ⟨2025, 1, 1⟩ (jsTrim "2024-04-30") = some ⟨2024, 4, 30⟩ ∧
    ((clearDate ⟨2025, 1, 1⟩
        ⟨[⟨"e1", "A", none, none, true⟩, ⟨"e2", "B", none, none, false⟩],
         [⟨"e1", "2024-04-30", true⟩, ⟨"e2", "2024-04-30", false⟩, ⟨"e1", "2024-05-01", true⟩]⟩
        "2024-04-30").1 =
      ClearResult.ok (([⟨"e1", "2024-04-30", true⟩, ⟨"e2", "2024-04-30", false⟩,
          (⟨"e1", "2024-05-01", true⟩ : AttendanceRecord)].filter
            fun a => a.attendance_date = dateKey ⟨2024, 4, 30⟩).length) ∧
     ∃ rows, getRoster ⟨2025, 1, 1⟩
        (clearDate ⟨2025, 1, 1⟩
          ⟨[⟨"e1", "A", none, none, true⟩, ⟨"e2", "B", none, none, false⟩],
           [⟨"e1", "2024-04-30", true⟩, ⟨"e2", "2024-04-30", false⟩, ⟨"e1", "2024-05-01", true⟩]⟩
          "2024-04-30").2 "2024-04-30" = RosterResult.ok rows false (dateKey ⟨2024, 4, 30⟩) ∧
       ∀ r ∈ rows, r.checkedIn = false ∧ r.attendanceRecorded = false) :=
  ⟨by decide, by decide,
   C6_clear_then_roster ⟨2025, 1, 1⟩
     ⟨[⟨"e1", "A", none, none, true⟩, ⟨"e2", "B", none, none, false⟩],
      [⟨"e1", "2024-04-30", true⟩, ⟨"e2", "2024-04-30", false⟩, ⟨"e1", "2024-05-01", true⟩]⟩
     "2024-04-30" ⟨2024, 4, 30⟩ (by decide) (by decide)⟩

/-- C7: marking attendance for an identifier absent from the registry
returns a not-found error and leaves both tables unchanged. -/
theorem C7_mark_unknown_notFound (today : ResolvedDate) (db : DB)
    (bid bdate : String) (ck : Bool)
    (hid : jsTrim bid ≠ "") (hdate : jsTrim bdate ≠ "")
    (rd : ResolvedDate) (hres : resolveDateFromQuery today (jsTrim bdate) = some rd)
    (habs : ∀ e ∈ db.employees, e.id ≠ jsTrim bid) :
    markAttendance today db ⟨some bid, some ck, some bdate⟩ = (PatchResult.notFound, db) := by
  have hany : (db.employees.any fun e => e.id = jsTrim bid) = false := by
    rw [List.any_eq_false]
    intro e he
    simpa using habs e he
  simp [markAttendance, hid, hdate, hres, hany]

theorem C7_mark_unknown_notFound_witness :
    jsTrim "ghost" ≠ "" ∧ jsTrim "2024-04-30" ≠ "" ∧
    resolveDateFromQuery ⟨2025, 1, 1⟩ (jsTrim "2024-04-30") = some ⟨2024, 4, 30⟩ ∧
    markAttendance ⟨2025, 1, 1⟩ ⟨[⟨"e1", "A", none, none, false⟩], [⟨"e1", "2024-04-30", true⟩]⟩
        ⟨some "ghost", some true, some "2024-04-30"⟩ =
      (PatchResult.notFound, ⟨[⟨"e1", "A", none, none, false⟩], [⟨"e1", "2024-04-30", true⟩]⟩) :=
  ⟨by decide, by decide, by decide,
   C7_mark_unknown_notFound ⟨2025, 1, 1⟩
     ⟨[⟨"e1", "A", none, none, false⟩], [⟨"e1", "2024-04-30", true⟩]⟩
     "ghost" "2024-04-30" true (by decide) (by decide) ⟨2024, 4, 30⟩ (by decide) (by decide)⟩

/-- C9 (amended): creating an employee with a name that is empty after
trimming is rejected with a validation error and persists nothing; creating
twice with names whose normalized forms are equal and non-empty succeeds the
first time and returns a conflict the second time, persisting no second
row. -/
theorem C9_create_empty_and_duplicate :
    (∀ (db : DB) (manualId : String) (p : SinglePayload), jsTrim (p.name.getD "") = "" →
      createEmployee db manualId p = (CreateResult.validationError, db)) ∧
    (∀ (db : DB) (mid1 mid2 n m : String) (p1 d1 p2 d2 : Option String),
      jsTrim n ≠ "" → jsTrim m ≠ "" →
      normalizeNameKey (jsTrim m) = normalizeNameKey (jsTrim n) →
      normalizeNameKey (jsTrim m) ≠ "" →
      (∀ r ∈ db.employees, normalizeNameKey r.name ≠ normalizeNameKey (jsTrim n)) →
      ∃ row db1,
        createEmployee db mid1 ⟨some n, p1, d1⟩ = (CreateResult.created row, db1) ∧
        db1.employees = db.employees ++ [row] ∧
        createEmployee db1 mid2 ⟨some m, p2, d2⟩ = (CreateResult.conflict, db1)) := by
  constructor
  · intro db manualId p hname
    simp [createEmployee, hname]
  · intro db mid1 mid2 n m p1 d1 p2 d2 hn hm hkey hkne hnocol
    have hcond1 : ¬(normalizeNameKey (jsTrim n) ≠ "" ∧
        (db.employees.any fun r => normalizeNameKey r.name = normalizeNameKey (jsTrim n)) = true) := by
      rintro ⟨-, hany⟩
      rw [List.any_eq_true] at hany
      obtain ⟨r, hr, hrk⟩ := hany
      exact hnocol r hr (by simpa using hrk)
    refine ⟨⟨mid1, jsTrim n, toNullableText (p1.getD ""), toNullableText (d1.getD ""), false⟩,
            ⟨db.employees ++ [⟨mid1, jsTrim n, toNullableText (p1.getD ""), toNullableText (d1.getD ""), false⟩],
             db.attendance⟩, ?_, rfl, ?_⟩
    · simp only [createEmployee, Option.getD_some]
      rw [if_neg (by simpa using hn), if_neg (by simpa using hcond1)]
    · have hany2 : ((db.employees ++
          [(⟨mid1, jsTrim n, toNullableText (p1.getD ""), toNullableText (d1.getD ""), false⟩ : Employee)]).any
            fun r => normalizeNameKey r.name = normalizeNameKey (jsTrim m)) = true := by
        rw [List.any_eq_true]
        exact ⟨_, List.mem_append_right _ (List.mem_singleton_self _), by simpa using hkey.symm⟩
      simp only [createEmployee, Option.getD_some]
      rw [if_neg (by simpa using hm), if_pos ⟨by simpa using hkne, hany2⟩]

theorem C9_create_empty_and_duplicate_witness :
    (jsTrim "  " = "" ∧
      createEmployee ⟨[], []⟩ "manual-1" ⟨some "  ", none, none⟩ =
        (CreateResult.validationError, ⟨[], []⟩)) ∧
    (jsTrim "Lee" ≠ "" ∧ normalizeNameKey (jsTrim "Lee") ≠ "" ∧
      ∃ row db1,
        createEmployee ⟨[], []⟩ "manual-1" ⟨some "Lee", none, none⟩ = (CreateResult.created row, db1) ∧
        db1.employees = ([] : List Employee) ++ [row] ∧
        createEmployee db1 "manual-2" ⟨some "Lee", none, none⟩ = (CreateResult.conflict, db1)) :=
  ⟨⟨by decide, C9_create_empty_and_duplicate.1 ⟨[], []⟩ "manual-1" ⟨some "  ", none, none⟩ (by decide)⟩,
   ⟨by decide, by decide,
    C9_create_empty_and_duplicate.2 ⟨[], []⟩ "manual-1" "manual-2" "Lee" "Lee" none none none none
      (by decide) (by decide) (by decide) (by decide) (by intro r hr; cases hr)⟩⟩

/-- C9 counterexample: a name made of a lone combining acute accent is
non-empty after trimming but has an empty normalized form, so the conflict
check is skipped and the second creation succeeds instead of returning a
conflict; a second row is persisted. -/
theorem C9_counterexample :
    jsTrim "́" ≠ "" ∧
    (createEmployee (createEmployee ⟨[], []⟩ "manual-1" ⟨some "́", none, none⟩).2 "manual-2"
        ⟨some "́", none, none⟩).1 ≠ CreateResult.conflict ∧
    (createEmployee (createEmployee ⟨[], []⟩ "manual-1" ⟨some "́", none, none⟩).2 "manual-2"
        ⟨some "́", none, none⟩).2.employees.length = 2 := by
  decide

/-- C3 (amended): single-employee creation preserves the invariant that no
two registry rows share an equal non-empty normalized name. -/
theorem C3_create_preserves_no_collision (db : DB) (manualId : String) (p : SinglePayload)
    (h : NoNameCollision db) : NoNameCollision (createEmployee db manualId p).2 := by
  by_cases hname : jsTrim (p.name.getD "") = ""
  · simpa [createEmployee, hname] using h
  · by_cases hcol : normalizeNameKey (jsTrim (p.name.getD "")) ≠ "" ∧
        (db.employees.any fun r =>
          normalizeNameKey r.name = normalizeNameKey (jsTrim (p.name.getD ""))) = true
    · have : (createEmployee db manualId p).2 = db := by
        simp only [createEmployee]
        rw [if_neg (by simpa using hname), if_pos (by simpa using hcol)]
      rw [this]
      exact h
    · have hstep : (createEmployee db manualId p).2 =
          ⟨db.employees ++ [⟨manualId, jsTrim (p.name.getD ""),
            toNullableText (p.position.getD ""), toNullableText (p.department.getD ""), false⟩],
           db.attendance⟩ := by
        simp only [createEmployee]
        rw [if_neg (by simpa using hname), if_neg (by simpa using hcol)]
      rw [hstep]
      unfold NoNameCollision
      rw [List.pairwise_append]
      refine ⟨h, by simp, ?_⟩
      intro a ha b hb
      rw [List.mem_singleton] at hb
      subst hb
      by_cases hk : normalizeNameKey (jsTrim (p.name.getD "")) = ""
      · by_cases hak : normalizeNameKey a.name = ""
        · exact Or.inr hak
        · exact Or.inl (by rw [hk]; exact hak)
      · rw [not_and_or] at hcol
        rcases hcol with hcol | hcol
        · exact absurd hk (by simpa using hcol)
        · have hall : ∀ r ∈ db.employees,
              ¬normalizeNameKey r.name = normalizeNameKey (jsTrim (p.name.getD "")) := by
            simpa using hcol
          exact Or.inl (hall a ha)

theorem C3_create_preserves_no_collision_witness :
    NoNameCollision ⟨[⟨"e1", "Ana Pérez", none, none, false⟩], []⟩ ∧
    NoNameCollision
      (createEmployee ⟨[⟨"e1", "Ana Pérez", none, none, false⟩], []⟩ "manual-9"
        ⟨some "Bob", none, none⟩).2 :=
  ⟨by decide,
   C3_create_preserves_no_collision ⟨[⟨"e1", "Ana Pérez", none, none, false⟩], []⟩ "manual-9"
     ⟨some "Bob", none, none⟩ (by decide)⟩

/-- C3 counterexample: batch reconciliation does not enforce the invariant —
two batch records carrying distinct identifiers and the same name are both
inserted, leaving two rows with the equal non-empty normalized name
`"bob"`. -/
theorem C3_counterexample :
    NoNameCollision ⟨[], []⟩ ∧
    ¬NoNameCollision
      (reconcileBatch (fun n => "manual-g" ++ toString n) ⟨[], []⟩
        [⟨some "a", some "Bob", none, none, none⟩,
         ⟨some "b", some "Bob", none, none, none⟩]).2 := by
  decide

/-- C8 (amended): every date-accepting operation accepts a supplied date
string exactly when it matches the `YYYY-MM-DD` pattern and its components
survive reconstruction through `Date.UTC` unchanged; an absent date defaults
to today for `getRoster`, while `markAttendance` and `clearDate` reject an
absent date with a validation error. -/
theorem C8_date_validation :
    (∀ (today : ResolvedDate) (s : String), s ≠ "" →
      ((resolveDateFromQuery today s).isSome = true ↔
        ∃ yn mn dn, matchDateRegex s = some (yn, mn, dn) ∧
          (jsUtcComponents (if 0 ≤ (yn : Int) ∧ (yn : Int) ≤ 99 then (yn : Int) + 1900 else (yn : Int))
              ((mn : Int) - 1) (dn : Int)).1 = (yn : Int) ∧
          (jsUtcComponents (if 0 ≤ (yn : Int) ∧ (yn : Int) ≤ 99 then (yn : Int) + 1900 else (yn : Int))
              ((mn : Int) - 1) (dn : Int)).2.1 = (mn : Int) ∧
          (jsUtcComponents (if 0 ≤ (yn : Int) ∧ (yn : Int) ≤ 99 then (yn : Int) + 1900 else (yn : Int))
              ((mn : Int) - 1) (dn : Int)).2.2 = (dn : Int))) ∧
    (∀ (today : ResolvedDate) (db : DB) (raw : String), jsTrim raw ≠ "" →
      (getRoster today db raw = RosterResult.badDate ↔
        resolveDateFromQuery today (jsTrim raw) = none)) ∧
    (∀ (today : ResolvedDate) (db : DB), ∃ rows h,
      getRoster today db "" = RosterResult.ok rows h (dateKey today)) ∧
    (∀ (today : ResolvedDate) (db : DB) (bid bdate : String) (ck : Bool),
      jsTrim bid ≠ "" → jsTrim bdate ≠ "" →
      ((markAttendance today db ⟨some bid, some ck, some bdate⟩).1 = PatchResult.badDate ↔
        resolveDateFromQuery today (jsTrim bdate) = none)) ∧
    (∀ (today : ResolvedDate) (db : DB) (bid : String) (ck : Bool),
      markAttendance today db ⟨some bid, some ck, none⟩ = (PatchResult.badRequest, db)) ∧
    (∀ (today : ResolvedDate) (db : DB) (raw : String), jsTrim raw ≠ "" →
      ((clearDate today db raw).1 = ClearResult.badDate ↔
        resolveDateFromQuery today (jsTrim raw) = none)) ∧
    (∀ (today : ResolvedDate) (db : DB), clearDate today db "" = (ClearResult.dateRequired, db)) ∧
    (∀ (today : ResolvedDate) (db : DB) (eid raw : String), jsTrim raw ≠ "" →
      ((deleteEmployee today db eid raw).1 = DeleteEmpResult.badDate ↔
        resolveDateFromQuery today (jsTrim raw) = none)) ∧
    (resolveDateFromQuery ⟨2025, 1, 1⟩ "2024-04-31" = none ∧
     (resolveDateFromQuery ⟨2025, 1, 1⟩ "2024-04-30").isSome = true ∧
     resolveDateFromQuery ⟨2025, 1, 1⟩ "2023-02-29" = none ∧
     (resolveDateFromQuery ⟨2025, 1, 1⟩ "2024-02-29").isSome = true) := by
  refine ⟨?_, ?_, ?_, ?_, ?_, ?_, ?_, ?_, by decide, by decide, by decide, by decide⟩
  · intro today s hs
    simp only [resolveDateFromQuery, hs, if_neg, if_false]
    cases hmr : matchDateRegex s with
    | none => simp
    | some t =>
      obtain ⟨yn, mn, dn⟩ := t
      dsimp only
      by_cases hrt : (jsUtcComponents
            (if 0 ≤ (yn : Int) ∧ (yn : Int) ≤ 99 then (yn : Int) + 1900 else (yn : Int))
            ((mn : Int) - 1) (dn : Int)).1 = (yn : Int) ∧
          (jsUtcComponents
            (if 0 ≤ (yn : Int) ∧ (yn : Int) ≤ 99 then (yn : Int) + 1900 else (yn : Int))
            ((mn : Int) - 1) (dn : Int)).2.1 = (mn : Int) ∧
          (jsUtcComponents
            (if 0 ≤ (yn : Int) ∧ (yn : Int) ≤ 99 then (yn : Int) + 1900 else (yn : Int))
            ((mn : Int) - 1) (dn : Int)).2.2 = (dn : Int)
      · rw [if_pos hrt]
        simp only [Option.isSome_some, true_iff]
        exact ⟨yn, mn, dn, rfl, hrt⟩
      · rw [if_neg hrt]
        simp only [Option.isSome_none, Bool.false_eq_true, false_iff]
        rintro ⟨yn', mn', dn', heq, hcomp⟩
        cases heq
        exact hrt hcomp
  · intro today db raw hne
    cases h : resolveDateFromQuery today (jsTrim raw) <;> simp [getRoster, h]
  · intro today db
    exact ⟨_, _, rfl⟩
  · intro today db bid bdate ck hid hdate
    cases h : resolveDateFromQuery today (jsTrim bdate) with
    | none =>
      simp only [markAttendance, Option.getD_some, h]
      rw [if_neg (by simp [hid, hdate])]
      simp
    | some rd =>
      have hgood : (markAttendance today db ⟨some bid, some ck, some bdate⟩).1 ≠
          PatchResult.badDate := by
        simp only [markAttendance, Option.getD_some, h]
        rw [if_neg (by simp [hid, hdate])]
        split
        · split <;> simp
        · simp
      simp [h, hgood]
  · intro today db bid ck
    simp only [markAttendance, Option.getD_none]
    rw [if_pos (Or.inr (by decide))]
  · intro today db raw hne
    cases h : resolveDateFromQuery today (jsTrim raw) <;> simp [clearDate, hne, h]
  · intro today db
    have hemp : jsTrim "" = "" := by decide
    simp [clearDate, hemp]
  · intro today db eid raw hne
    cases h : resolveDateFromQuery today (jsTrim raw) with
    | none => simp [deleteEmployee, hne, h]
    | some rd =>
      have hgood : (deleteEmployee today db eid raw).1 ≠ DeleteEmpResult.badDate := by
        simp only [deleteEmployee, h]
        rw [if_neg (by simp)]
        split <;> simp
      simp [h, hgood]

theorem C8_date_validation_witness :
    jsTrim "2024-04-31" ≠ "" ∧
    (getRoster ⟨2025, 1, 1⟩ ⟨[], []⟩ "2024-04-31" = RosterResult.badDate ↔
      resolveDateFromQuery ⟨2025, 1, 1⟩ (jsTrim "2024-04-31") = none) :=
  ⟨by decide, C8_date_validation.2.1 ⟨2025, 1, 1⟩ ⟨[], []⟩ "2024-04-31" (by decide)⟩

/-- C8 counterexample: an absent date does not default to today for
`markAttendance` — the PATCH with no date field is rejected with a
validation error and nothing is written, even though the employee exists. -/
theorem C8_counterexample :
    markAttendance ⟨2025, 1, 1⟩ ⟨[⟨"e1", "A", none, none, false⟩], []⟩
        ⟨some "e1", some true, none⟩ =
      (PatchResult.badRequest, ⟨[⟨"e1", "A", none, none, false⟩], []⟩) := by
  decide

theorem jsTrim_empty : jsTrim "" = "" := by decide

/-- C5: on an empty registry the batch `[{name:"Ana Pérez"}, {name:"ana
perez"}]` inserts the first record and skips the second as an in-batch
duplicate by name (`inserted=1, skipped=1`); in general a single no-id record
is matched to an existing employee exactly when the two names' normalized
(diacritic-stripped, case-folded, whitespace-collapsed) forms are equal. -/
theorem C5_name_identity :
    (reconcileBatch (fun n => "manual-g" ++ toString n) ⟨[], []⟩
        [⟨none, some "Ana Pérez", none, none, none⟩,
         ⟨none, some "ana perez", none, none, none⟩]).1 =
      ⟨1, 1, 0, 0, 0⟩ ∧
    (∀ (gen : Nat → String) (e : Employee) (att : List AttendanceRecord)
        (n2 : String) (rp rdp : Option String) (rc : Option Bool),
      jsTrim n2 ≠ "" → normalizeNameKey (jsTrim n2) ≠ "" →
      (reconcileBatch gen ⟨[e], att⟩ [⟨none, some n2, rp, rdp, rc⟩]).1.matchedByName =
        (if normalizeNameKey e.name = normalizeNameKey (jsTrim n2) then 1 else 0)) := by
  constructor
  · decide
  · intro gen e att n2 rp rdp rc hn hk
    by_cases hEq : normalizeNameKey e.name = normalizeNameKey (jsTrim n2)
    · have hlook : mapLookup (buildByName [e]) (normalizeNameKey (jsTrim n2)) = some e := by
        unfold buildByName byNameStep
        simp only [List.foldl_cons, List.foldl_nil]
        rw [if_pos ⟨by rw [hEq]; exact hk, by simp [mapLookup]⟩]
        simp [mapLookup, hEq]
      rw [if_pos hEq]
      simp [reconcileBatch, classify, classifyStep, initState, jsTrim_empty, hn, hk, hlook]
    · have hlook : mapLookup (buildByName [e]) (normalizeNameKey (jsTrim n2)) = none := by
        unfold buildByName byNameStep
        simp only [List.foldl_cons, List.foldl_nil]
        by_cases hke : normalizeNameKey e.name = ""
        · rw [if_neg (by simp [hke])]
          simp [mapLookup]
        · rw [if_pos ⟨hke, by simp [mapLookup]⟩]
          simp only [List.nil_append]
          exact mapLookup_single_ne _ _ _ (fun h => hEq h.symm)
      rw [if_neg hEq]
      simp [reconcileBatch, classify, classifyStep, initState, jsTrim_empty, hn, hk, hlook]

theorem C5_name_identity_witness :
    jsTrim "ANA  pérez" ≠ "" ∧ normalizeNameKey (jsTrim "ANA  pérez") ≠ "" ∧
    (reconcileBatch (fun n => "manual-g" ++ toString n)
        ⟨[⟨"manual-1", "Ana Pérez", none, none, false⟩], []⟩
        [⟨none, some "ANA  pérez", none, none, none⟩]).1.matchedByName =
      (if normalizeNameKey (⟨"manual-1", "Ana Pérez", none, none, false⟩ : Employee).name =
          normalizeNameKey (jsTrim "ANA  pérez") then 1 else 0) :=
  ⟨by decide, by decide,
   C5_name_identity.2 (fun n => "manual-g" ++ toString n)
     ⟨"manual-1", "Ana Pérez", none, none, false⟩ [] "ANA  pérez" none none none
     (by decide) (by decide)⟩

/-- C1: for a manual-id employee E with no name collision, a one-record
batch bearing E's normalized name and a fresh identifier is classified as a
promotion: the response reports promoted = 1, E's old identifier disappears
from the registry, and every attendance record owned by the old identifier
is owned by the new identifier with its checked-in value unchanged. -/
theorem C1_promotion (gen : Nat → String) (db : DB) (e : Employee)
    (rid rname : String) (rp rdp : Option String) (rc : Option Bool)
    (hmem : e ∈ db.employees)
    (hman : strStartsWith e.id "manual-" = true)
    (hkey : normalizeNameKey e.name ≠ "")
    (huniq : ∀ r ∈ db.employees, r ≠ e → normalizeNameKey r.name ≠ normalizeNameKey e.name)
    (hname : normalizeNameKey (jsTrim rname) = normalizeNameKey e.name)
    (hnm : jsTrim rname ≠ "")
    (hid : jsTrim rid ≠ "")
    (hfresh : ∀ r ∈ db.employees, r.id ≠ jsTrim rid) :
    (reconcileBatch gen db [⟨some rid, some rname, rp, rdp, rc⟩]).1.promoted = 1 ∧
    (∀ r ∈ (reconcileBatch gen db [⟨some rid, some rname, rp, rdp, rc⟩]).2.employees,
      r.id ≠ e.id) ∧
    (∀ a ∈ db.attendance, a.employee_id = e.id →
      (⟨jsTrim rid, a.attendance_date, a.checked_in⟩ : AttendanceRecord) ∈
        (reconcileBatch gen db [⟨some rid, some rname, rp, rdp, rc⟩]).2.attendance) := by
  have hidne : e.id ≠ "" := by
    intro h
    rw [h] at hman
    exact absurd hman (by decide)
  have hbid : mapLookup (buildById db.employees) (jsTrim rid) = none :=
    buildById_lookup_none _ _ hfresh
  have hkname : normalizeNameKey (jsTrim rname) ≠ "" := by
    rw [hname]; exact hkey
  have hbn : mapLookup (buildByName db.employees) (normalizeNameKey (jsTrim rname)) = some e := by
    rw [hname]
    exact buildByName_some _ _ _ hkey rfl hmem
      (fun r hr hrk => by_contra fun hne => huniq r hr hne hrk)
  refine ⟨?_, ?_, ?_⟩
  · simp [reconcileBatch, classify, classifyStep, initState, applyUpdates, applyPromotion,
      insertIgnore, hnm, hid, hbid, hbn, hkname, hidne, hman]
  · simp [reconcileBatch, classify, classifyStep, initState, applyUpdates, applyPromotion,
      insertIgnore, hnm, hid, hbid, hbn, hkname, hidne, hman]
  · intro a ha heq
    simp [reconcileBatch, classify, classifyStep, initState, applyUpdates, applyPromotion,
      insertIgnore, hnm, hid, hbid, hbn, hkname, hidne, hman]
    exact ⟨a, ha, by simp [heq]⟩

theorem C1_promotion_witness :
    (⟨"manual-7", "Ana Pérez", some "Dev", none, true⟩ : Employee) ∈
      ([⟨"manual-7", "Ana Pérez", some "Dev", none, true⟩] : List Employee) ∧
    strStartsWith "manual-7" "manual-" = true ∧
    jsTrim "ext-1" ≠ "" ∧
    ((reconcileBatch (fun n => "manual-g" ++ toString n)
        ⟨[⟨"manual-7", "Ana Pérez", some "Dev", none, true⟩],
         [⟨"manual-7", "2024-04-30", true⟩, ⟨"other", "2024-04-30", false⟩]⟩
        [⟨some "ext-1", some "ana perez", none, none, none⟩]).1.promoted = 1 ∧
     (∀ r ∈ (reconcileBatch (fun n => "manual-g" ++ toString n)
        ⟨[⟨"manual-7", "Ana Pérez", some "Dev", none, true⟩],
         [⟨"manual-7", "2024-04-30", true⟩, ⟨"other", "2024-04-30", false⟩]⟩
        [⟨some "ext-1", some "ana perez", none, none, none⟩]).2.employees,
       r.id ≠ (⟨"manual-7", "Ana Pérez", some "Dev", none, true⟩ : Employee).id) ∧
     (∀ a ∈ [(⟨"manual-7", "2024-04-30", true⟩ : AttendanceRecord),
             ⟨"other", "2024-04-30", false⟩],
       a.employee_id = (⟨"manual-7", "Ana Pérez", some "Dev", none, true⟩ : Employee).id →
       (⟨jsTrim "ext-1", a.attendance_date, a.checked_in⟩ : AttendanceRecord) ∈
         (reconcileBatch (fun n => "manual-g" ++ toString n)
           ⟨[⟨"manual-7", "Ana Pérez", some "Dev", none, true⟩],
            [⟨"manual-7", "2024-04-30", true⟩, ⟨"other", "2024-04-30", false⟩]⟩
           [⟨some "ext-1", some "ana perez", none, none, none⟩]).2.attendance)) :=
  ⟨by decide, by decide, by decide,
   C1_promotion (fun n => "manual-g" ++ toString n)
     ⟨[⟨"manual-7", "Ana Pérez", some "Dev", none, true⟩],
      [⟨"manual-7", "2024-04-30", true⟩, ⟨"other", "2024-04-30", false⟩]⟩
     ⟨"manual-7", "Ana Pérez", some "Dev", none, true⟩
     "ext-1" "ana perez" none none none
     (by decide) (by decide) (by decide) (by decide) (by decide) (by decide) (by decide)
     (by decide)⟩

/-!
Counter bookkeeping: each classified record lands in exactly one bucket.
-/

theorem classifyStep_sum (gen : Nat → String) (s : ClassState) (r : RawRecord) :
    (classifyStep gen s r).updatesById.length + (classifyStep gen s r).updatesByName.length +
      (classifyStep gen s r).promotions.length + (classifyStep gen s r).inserts.length +
      (classifyStep gen s r).skipped =
    s.updatesById.length + s.updatesByName.length + s.promotions.length + s.inserts.length +
      s.skipped + 1 := by
  unfold classifyStep
  dsimp only
  split
  · simp_arith
  · split
    · split
      · simp_arith
      · split
        · simp_arith
        · split
          · split
            · simp_arith
            · simp_arith
          · simp_arith
    · split
      · simp_arith
      · split
        · split <;> simp_arith
        · split <;> simp_arith

theorem classify_fold_sum (gen : Nat → String) (B : List RawRecord) : ∀ s : ClassState,
    (B.foldl (classifyStep gen) s).updatesById.length +
      (B.foldl (classifyStep gen) s).updatesByName.length +
      (B.foldl (classifyStep gen) s).promotions.length +
      (B.foldl (classifyStep gen) s).inserts.length +
      (B.foldl (classifyStep gen) s).skipped =
    s.updatesById.length + s.updatesByName.length + s.promotions.length + s.inserts.length +
      s.skipped + B.length := by
  induction B with
  | nil => intro s; simp
  | cons r rs ih =>
    intro s
    simp only [List.foldl_cons, List.length_cons]
    rw [ih (classifyStep gen s r), classifyStep_sum]
    omega

theorem classify_sum (gen : Nat → String) (rows : List Employee) (B : List RawRecord) :
    (classify gen rows B).updatesById.length + (classify gen rows B).updatesByName.length +
      (classify gen rows B).promotions.length + (classify gen rows B).inserts.length +
      (classify gen rows B).skipped = B.length := by
  unfold classify
  rw [classify_fold_sum gen B (initState rows)]
  simp [initState]

theorem foldl_snd_le {α β : Type} (f : List β × Nat → α → List β × Nat)
    (hf : ∀ acc it, (f acc it).2 ≤ acc.2 + 1) :
    ∀ (its : List α) (acc : List β × Nat), (its.foldl f acc).2 ≤ acc.2 + its.length := by
  intro its
  induction its with
  | nil => intro acc; simp
  | cons it its ih =>
    intro acc
    simp only [List.foldl_cons, List.length_cons]
    calc (its.foldl f (f acc it)).2 ≤ (f acc it).2 + its.length := ih _
    _ ≤ acc.2 + (its.length + 1) := by have := hf acc it; omega

theorem insertIgnore_le (emps : List Employee) (items : List InsertItem) :
    (insertIgnore emps items).2 ≤ items.length := by
  unfold insertIgnore
  have h := foldl_snd_le
    (fun acc it =>
      if acc.1.any (fun e => e.id = it.id) then acc
      else (acc.1 ++ [⟨it.id, it.name, toNullableText it.position, toNullableText it.department,
        it.checkedIn⟩], acc.2 + 1))
    (fun acc it => by dsimp only; split <;> simp)
    items (emps, 0)
  simpa using h

/-- C10: for every non-empty batch, the five response counters partition the
incoming records: updated + matchedByName + promoted + inserted + skipped
equals the number of records. -/
theorem C10_counters_partition (gen : Nat → String) (db : DB) (B : List RawRecord)
    (hne : B ≠ []) :
    (reconcileBatch gen db B).1.updated + (reconcileBatch gen db B).1.matchedByName +
      (reconcileBatch gen db B).1.promoted + (reconcileBatch gen db B).1.inserted +
      (reconcileBatch gen db B).1.skipped = B.length := by
  have hempty : B.isEmpty = false := by
    cases B with
    | nil => exact absurd rfl hne
    | cons a l => rfl
  have hsum := classify_sum gen db.employees B
  have hle := insertIgnore_le
    (List.foldl applyPromotion
      ⟨applyUpdates (applyUpdates db.employees (classify gen db.employees B).updatesById)
          (classify gen db.employees B).updatesByName,
        db.attendance⟩
      (classify gen db.employees B).promotions).employees
    (classify gen db.employees B).inserts
  simp only [reconcileBatch, hempty, Bool.false_eq_true, if_false]
  omega

theorem C10_counters_partition_witness :
    ([(⟨some "a", some "Bob", none, none, none⟩ : RawRecord),
      ⟨some "a", some "Bob2", none, none, none⟩,
      ⟨none, some "", none, none, none⟩,
      ⟨none, some "Cara", none, none, none⟩] ≠ []) ∧
    (reconcileBatch (fun n => "manual-g" ++ toString n)
        ⟨[⟨"manual-3", "Cara", none, none, false⟩], []⟩
        [⟨some "a", some "Bob", none, none, none⟩,
         ⟨some "a", some "Bob2", none, none, none⟩,
         ⟨none, some "", none, none, none⟩,
         ⟨none, some "Cara", none, none, none⟩]).1.updated +
      (reconcileBatch (fun n => "manual-g" ++ toString n)
        ⟨[⟨"manual-3", "Cara", none, none, false⟩], []⟩
        [⟨some "a", some "Bob", none, none, none⟩,
         ⟨some "a", some "Bob2", none, none, none⟩,
         ⟨none, some "", none, none, none⟩,
         ⟨none, some "Cara", none, none, none⟩]).1.matchedByName +
      (reconcileBatch (fun n => "manual-g" ++ toString n)
        ⟨[⟨"manual-3", "Cara", none, none, false⟩], []⟩
        [⟨some "a", some "Bob", none, none, none⟩,
         ⟨some "a", some "Bob2", none, none, none⟩,
         ⟨none, some "", none, none, none⟩,
         ⟨none, some "Cara", none, none, none⟩]).1.promoted +
      (reconcileBatch (fun n => "manual-g" ++ toString n)
        ⟨[⟨"manual-3", "Cara", none, none, false⟩], []⟩
        [⟨some "a", some "Bob", none, none, none⟩,
         ⟨some "a", some "Bob2", none, none, none⟩,
         ⟨none, some "", none, none, none⟩,
         ⟨none, some "Cara", none, none, none⟩]).1.inserted +
      (reconcileBatch (fun n => "manual-g" ++ toString n)
        ⟨[⟨"manual-3", "Cara", none, none, false⟩], []⟩
        [⟨some "a", some "Bob", none, none, none⟩,
         ⟨some "a", some "Bob2", none, none, none⟩,
         ⟨none, some "", none, none, none⟩,
         ⟨none, some "Cara", none, none, none⟩]).1.skipped =
      ([(⟨some "a", some "Bob", none, none, none⟩ : RawRecord),
        ⟨some "a", some "Bob2", none, none, none⟩,
        ⟨none, some "", none, none, none⟩,
        ⟨none, some "Cara", none, none, none⟩]).length :=
  ⟨by decide,
   C10_counters_partition (fun n => "manual-g" ++ toString n)
     ⟨[⟨"manual-3", "Cara", none, none, false⟩], []⟩
     [⟨some "a", some "Bob", none, none, none⟩,
      ⟨some "a", some "Bob2", none, none, none⟩,
      ⟨none, some "", none, none, none⟩,
      ⟨none, some "Cara", none, none, none⟩]
     (by decide)⟩

/-!
Idempotence of trimming, needed to relate re-trimmed merge results to the
already-trimmed incoming batch fields.
-/

theorem dropWhile_idem {α : Type} (p : α → Bool) : ∀ l : List α,
    (l.dropWhile p).dropWhile p = l.dropWhile p := by
  intro l
  induction l with
  | nil => rfl
  | cons a l ih =>
    by_cases hp : p a
    · rw [List.dropWhile_cons, if_pos hp]
      exact ih
    · rw [List.dropWhile_cons, if_neg hp, List.dropWhile_cons, if_neg hp]

theorem head?_dropWhile_false {α : Type} (p : α → Bool) : ∀ (l : List α) (x : α),
    (l.dropWhile p).head? = some x → p x = false := by
  intro l
  induction l with
  | nil => intro x h; simp at h
  | cons a l ih =>
    intro x h
    by_cases hp : p a
    · rw [List.dropWhile_cons, if_pos hp] at h
      exact ih x h
    · rw [List.dropWhile_cons, if_neg hp] at h
      simp only [List.head?_cons, Option.some.injEq] at h
      subst h
      simpa using hp

theorem dropWhile_of_head_false {α : Type} (p : α → Bool) (l : List α)
    (h : ∀ x, l.head? = some x → p x = false) : l.dropWhile p = l := by
  cases l with
  | nil => rfl
  | cons a l =>
    rw [List.dropWhile_cons, if_neg ?_]
    simp [h a rfl]

theorem getLast?_dropWhile {α : Type} (p : α → Bool) : ∀ l : List α,
    l.dropWhile p ≠ [] → (l.dropWhile p).getLast? = l.getLast? := by
  intro l
  induction l with
  | nil => intro h; simp at h
  | cons a l ih =>
    intro h
    by_cases hp : p a
    · rw [List.dropWhile_cons, if_pos hp] at h ⊢
      rw [ih h]
      have hl : l ≠ [] := by
        intro hnil
        rw [hnil] at h
        simp at h
      cases hl2 : l.getLast? with
      | none => exact absurd (List.getLast?_eq_none_iff.mp hl2) hl
      | some y => rw [List.getLast?_cons, hl2]; rfl
    · rw [List.dropWhile_cons, if_neg hp]

theorem trimChars_idem (cs : List Char) : trimChars (trimChars cs) = trimChars cs := by
  unfold trimChars
  by_cases hB : (cs.dropWhile isJsWs).reverse.dropWhile isJsWs = []
  · rw [hB]
    simp
  · have hstep1 : ((cs.dropWhile isJsWs).reverse.dropWhile isJsWs).reverse.dropWhile isJsWs =
        ((cs.dropWhile isJsWs).reverse.dropWhile isJsWs).reverse := by
      apply dropWhile_of_head_false
      intro x hx
      rw [List.head?_reverse, getLast?_dropWhile _ _ hB, List.getLast?_reverse] at hx
      exact head?_dropWhile_false isJsWs cs x hx
    rw [hstep1, List.reverse_reverse, dropWhile_idem]

theorem toList_asString (l : List Char) : l.asString.toList = l := rfl

theorem jsTrim_idem (s : String) : jsTrim (jsTrim s) = jsTrim s := by
  unfold jsTrim
  rw [toList_asString, trimChars_idem]

theorem strFallback_empty (a : String) : strFallback a "" = a := by
  unfold strFallback
  split
  · exact (by assumption : a = "").symm
  · rfl

theorem toNullableText_of_trimmed (p : String) (hp : jsTrim p = p) (hne : p ≠ "") :
    toNullableText p = some p := by
  unfold toNullableText
  rw [hp, if_neg hne]

theorem merged_optfield_eq (p : String) (o : Option String)
    (hwf : ∀ s, o = some s → jsTrim s = s ∧ s ≠ "")
    (hp : jsTrim p = p) :
    toNullableText (strFallback (jsOrStr p o) "") = (if p = "" then o else some p) := by
  rw [strFallback_empty]
  by_cases hp0 : p = ""
  · rw [if_pos hp0]
    unfold jsOrStr
    rw [if_pos hp0]
    cases o with
    | none => decide
    | some s =>
      have hs := hwf s rfl
      rw [Option.getD_some]
      exact toNullableText_of_trimmed s hs.1 hs.2
  · rw [if_neg hp0]
    unfold jsOrStr
    rw [if_neg hp0]
    exact toNullableText_of_trimmed p hp hp0

theorem mergedChecked_getD (rc : Option Bool) (e : Employee) :
    mergedChecked rc.isSome (rc.getD false) e = rc.getD e.checked_in := by
  cases rc <;> rfl

set_option maxHeartbeats 1000000 in
/-- C4 (amended): a single-record batch whose supplied identifier matches an
existing employee and whose name is non-empty is classified update-by-id
(`updated = 1`, all other counters zero), and the persisted row keeps the
identifier while merging fields: name/position/department take the incoming
value when non-empty after trimming and the existing value otherwise, and
checked-in takes the incoming boolean when one was supplied and the existing
value otherwise. -/
theorem C4_update_by_id (gen : Nat → String) (db : DB) (e : Employee)
    (rid rname : String) (rp rdp : Option String) (rc : Option Bool)
    (hnodup : (db.employees.map Employee.id).Nodup)
    (hmem : e ∈ db.employees)
    (hid : jsTrim rid = e.id)
    (hidne : e.id ≠ "")
    (hnm : jsTrim rname ≠ "")
    (hpos : ∀ s, e.position = some s → jsTrim s = s ∧ s ≠ "")
    (hdep : ∀ s, e.department = some s → jsTrim s = s ∧ s ≠ "") :
    (reconcileBatch gen db [⟨some rid, some rname, rp, rdp, rc⟩]).1 = ⟨0, 0, 1, 0, 0⟩ ∧
    ∃ r, r ∈ (reconcileBatch gen db [⟨some rid, some rname, rp, rdp, rc⟩]).2.employees ∧
      r.id = e.id ∧
      r.name = jsTrim rname ∧
      r.position = (if jsTrim (rp.getD "") = "" then e.position else some (jsTrim (rp.getD ""))) ∧
      r.department = (if jsTrim (rdp.getD "") = "" then e.department else some (jsTrim (rdp.getD ""))) ∧
      r.checked_in = rc.getD e.checked_in := by
  have hlook : mapLookup (buildById db.employees) (jsTrim rid) = some e := by
    rw [hid]
    exact buildById_lookup_mem _ _ hnodup hmem
  have hidne' : jsTrim rid ≠ "" := by rw [hid]; exact hidne
  constructor
  · simp [reconcileBatch, classify, classifyStep, initState, applyUpdates, applyUpdateItem,
      insertIgnore, hnm, hidne', hlook]
  · refine ⟨{ e with
        name := mergedName (jsTrim rname) e,
        position := toNullableText (mergedPosition (jsTrim (rp.getD "")) e),
        department := toNullableText (mergedDepartment (jsTrim (rdp.getD "")) e),
        checked_in := mergedChecked rc.isSome (rc.getD false) e }, ?_, rfl, ?_, ?_, ?_, ?_⟩
    · simp [reconcileBatch, classify, classifyStep, initState, applyUpdates, applyUpdateItem,
        insertIgnore, hnm, hidne', hlook]
      exact ⟨e, hmem, by rw [if_pos hid.symm]⟩
    · unfold mergedName
      rw [strFallback_empty]
      unfold strFallback
      rw [if_neg hnm]
    · unfold mergedPosition
      exact merged_optfield_eq _ _ hpos (jsTrim_idem _)
    · unfold mergedDepartment
      exact merged_optfield_eq _ _ hdep (jsTrim_idem _)
    · exact mergedChecked_getD rc e

/-- C4 counterexample: in a multi-record batch, a later record matching the
same employee by name overwrites the row after the update-by-id executor
ran, so the persisted position is the later record's `"P2"`, not the
update-by-id record's incoming `"P1"` as the claim states. -/
theorem C4_counterexample :
    (reconcileBatch (fun n => "manual-g" ++ toString n)
        ⟨[⟨"a", "Bob", none, none, false⟩], []⟩
        [⟨some "a", some "Bob", some "P1", none, none⟩,
         ⟨none, some "Bob", some "P2", none, none⟩]).1.updated = 1 ∧
    (reconcileBatch (fun n => "manual-g" ++ toString n)
        ⟨[⟨"a", "Bob", none, none, false⟩], []⟩
        [⟨some "a", some "Bob", some "P1", none, none⟩,
         ⟨none, some "Bob", some "P2", none, none⟩]).2.employees.map Employee.position =
      [some "P2"] ∧
    ¬(reconcileBatch (fun n => "manual-g" ++ toString n)
        ⟨[⟨"a", "Bob", none, none, false⟩], []⟩
        [⟨some "a", some "Bob", some "P1", none, none⟩,
         ⟨none, some "Bob", some "P2", none, none⟩]).2.employees.map Employee.position =
      [some "P1"] := by
  decide

theorem C4_update_by_id_witness :
    (([⟨"a", "Bob", some "Dev", none, true⟩] : List Employee).map Employee.id).Nodup ∧
    (⟨"a", "Bob", some "Dev", none, true⟩ : Employee) ∈
      ([⟨"a", "Bob", some "Dev", none, true⟩] : List Employee) ∧
    jsTrim " Bobby " ≠ "" ∧
    ((reconcileBatch (fun n => "manual-g" ++ toString n)
        ⟨[⟨"a", "Bob", some "Dev", none, true⟩], []⟩
        [⟨some "a", some " Bobby ", some "QA", none, some false⟩]).1 = ⟨0, 0, 1, 0, 0⟩ ∧
     ∃ r, r ∈ (reconcileBatch (fun n => "manual-g" ++ toString n)
        ⟨[⟨"a", "Bob", some "Dev", none, true⟩], []⟩
        [⟨some "a", some " Bobby ", some "QA", none, some false⟩]).2.employees ∧
       r.id = (⟨"a", "Bob", some "Dev", none, true⟩ : Employee).id ∧
       r.name = jsTrim " Bobby " ∧
       r.position = (if jsTrim ((some "QA").getD "") = ""
         then (⟨"a", "Bob", some "Dev", none, true⟩ : Employee).position
         else some (jsTrim ((some "QA").getD ""))) ∧
       r.department = (if jsTrim ((none : Option String).getD "") = ""
         then (⟨"a", "Bob", some "Dev", none, true⟩ : Employee).department
         else some (jsTrim ((none : Option String).getD ""))) ∧
       r.checked_in = (some false).getD (⟨"a", "Bob", some "Dev", none, true⟩ : Employee).checked_in) :=
  ⟨by decide, by decide, by decide,
   C4_update_by_id (fun n => "manual-g" ++ toString n)
     ⟨[⟨"a", "Bob", some "Dev", none, true⟩], []⟩
     ⟨"a", "Bob", some "Dev", none, true⟩
     "a" " Bobby " (some "QA") none (some false)
     (by decide) (by decide) (by decide) (by decide) (by decide)
     (fun s hs => by cases hs; exact ⟨by decide, by decide⟩)
     (fun s hs => by cases hs)⟩

/-!
Classification of a batch whose records all carry identifiers that hit the
`existingById` map: every record becomes update-by-id or a duplicate skip.
-/

theorem classifyStep_allById (gen : Nat → String) (s : ClassState) (r : RawRecord)
    (hname : jsTrim (r.name.getD "") ≠ "")
    (hid : jsTrim (r.id.getD "") ≠ "")
    (hlook : (mapLookup s.byId (jsTrim (r.id.getD ""))).isSome = true) :
    (classifyStep gen s r).byId = s.byId ∧
    (classifyStep gen s r).promotions = s.promotions ∧
    (classifyStep gen s r).updatesByName = s.updatesByName ∧
    (classifyStep gen s r).inserts = s.inserts ∧
    (if jsTrim (r.id.getD "") ∈ s.seenIds
     then (classifyStep gen s r).seenIds = s.seenIds ∧
          (classifyStep gen s r).updatesById = s.updatesById ∧
          (classifyStep gen s r).skipped = s.skipped + 1
     else (classifyStep gen s r).seenIds = s.seenIds ++ [jsTrim (r.id.getD "")] ∧
          (classifyStep gen s r).updatesById.length = s.updatesById.length + 1 ∧
          (classifyStep gen s r).skipped = s.skipped) := by
  obtain ⟨ex, hex⟩ := Option.isSome_iff_exists.mp hlook
  by_cases hmem : jsTrim (r.id.getD "") ∈ s.seenIds
  · rw [if_pos hmem]
    simp [classifyStep, hname, hid, hmem]
  · rw [if_neg hmem]
    simp [classifyStep, hname, hid, hmem, hex]

theorem classify_fold_allById (gen : Nat → String) (B : List RawRecord) :
    ∀ s : ClassState,
    (∀ r ∈ B, jsTrim (r.name.getD "") ≠ "" ∧ jsTrim (r.id.getD "") ≠ "" ∧
      (mapLookup s.byId (jsTrim (r.id.getD ""))).isSome = true) →
    (B.foldl (classifyStep gen) s).byId = s.byId ∧
    (B.foldl (classifyStep gen) s).promotions = s.promotions ∧
    (B.foldl (classifyStep gen) s).updatesByName = s.updatesByName ∧
    (B.foldl (classifyStep gen) s).inserts = s.inserts ∧
    (B.foldl (classifyStep gen) s).seenIds =
      (B.map fun r => jsTrim (r.id.getD "")).foldl
        (fun sn x => if x ∈ sn then sn else sn ++ [x]) s.seenIds ∧
    (B.foldl (classifyStep gen) s).updatesById.length + s.seenIds.length =
      s.updatesById.length + (B.foldl (classifyStep gen) s).seenIds.length ∧
    (B.foldl (classifyStep gen) s).updatesById.length + (B.foldl (classifyStep gen) s).skipped =
      s.updatesById.length + s.skipped + B.length := by
  induction B with
  | nil => intro s _; simp
  | cons r rs ih =>
    intro s hB
    obtain ⟨hn, hi, hl⟩ := hB r (by simp)
    have hstep := classifyStep_allById gen s r hn hi hl
    obtain ⟨sbyId, sprom, sbyName, sins, scase⟩ := hstep
    have hBrs : ∀ x ∈ rs, jsTrim (x.name.getD "") ≠ "" ∧ jsTrim (x.id.getD "") ≠ "" ∧
        (mapLookup (classifyStep gen s r).byId (jsTrim (x.id.getD ""))).isSome = true := by
      intro x hx
      obtain ⟨h1, h2, h3⟩ := hB x (by simp [hx])
      exact ⟨h1, h2, by rw [sbyId]; exact h3⟩
    have hih := ih (classifyStep gen s r) hBrs
    obtain ⟨i1, i2, i3, i4, i5, i6, i7⟩ := hih
    simp only [List.foldl_cons, List.map_cons, List.length_cons]
    by_cases hmem : jsTrim (r.id.getD "") ∈ s.seenIds
    · rw [if_pos hmem] at scase
      obtain ⟨c1, c2, c3⟩ := scase
      refine ⟨by rw [i1, sbyId], by rw [i2, sprom], by rw [i3, sbyName], by rw [i4, sins],
        ?_, ?_, ?_⟩
      · rw [i5, c1, if_pos hmem]
      · rw [c1, c2] at i6
        exact i6
      · rw [c2, c3] at i7
        omega
    · rw [if_neg hmem] at scase
      obtain ⟨c1, c2, c3⟩ := scase
      refine ⟨by rw [i1, sbyId], by rw [i2, sprom], by rw [i3, sbyName], by rw [i4, sins],
        ?_, ?_, ?_⟩
      · rw [i5, c1, if_neg hmem]
      · rw [c1, List.length_append, c2] at i6
        simp only [List.length_singleton] at i6
        omega
      · rw [c2, c3] at i7
        omega

theorem seenFold_nodup : ∀ (xs sn : List String), sn.Nodup →
    (xs.foldl (fun sn x => if x ∈ sn then sn else sn ++ [x]) sn).Nodup := by
  intro xs
  induction xs with
  | nil => intro sn h; exact h
  | cons x xs ih =>
    intro sn h
    simp only [List.foldl_cons]
    by_cases hx : x ∈ sn
    · rw [if_pos hx]
      exact ih sn h
    · rw [if_neg hx]
      apply ih
      rw [List.nodup_append]
      refine ⟨h, List.nodup_singleton x, ?_⟩
      intro a ha hax
      rw [List.mem_singleton] at hax
      exact hx (hax ▸ ha)

theorem seenFold_mem : ∀ (xs sn : List String) (a : String),
    (a ∈ xs.foldl (fun sn x => if x ∈ sn then sn else sn ++ [x]) sn) ↔ a ∈ sn ∨ a ∈ xs := by
  intro xs
  induction xs with
  | nil => intro sn a; simp
  | cons x xs ih =>
    intro sn a
    simp only [List.foldl_cons]
    by_cases hx : x ∈ sn
    · rw [if_pos hx, ih]
      constructor
      · rintro (h | h)
        · exact Or.inl h
        · exact Or.inr (by simp [h])
      · rintro (h | h)
        · exact Or.inl h
        · rcases List.mem_cons.mp h with h | h
          · exact Or.inl (h ▸ hx)
          · exact Or.inr h
    · rw [if_neg hx, ih]
      constructor
      · rintro (h | h)
        · rcases List.mem_append.mp h with h | h
          · exact Or.inl h
          · exact Or.inr (by simp [List.mem_singleton.mp h])
        · exact Or.inr (by simp [h])
      · rintro (h | h)
        · exact Or.inl (List.mem_append_left _ h)
        · rcases List.mem_cons.mp h with h | h
          · exact Or.inl (List.mem_append_right _ (by simp [h]))
          · exact Or.inr h

theorem seenFold_length_dedup (xs : List String) :
    (xs.foldl (fun sn x => if x ∈ sn then sn else sn ++ [x]) []).length = xs.dedup.length := by
  have h1 := seenFold_nodup xs [] (List.nodup_nil)
  have h2 : ∀ a, (a ∈ xs.foldl (fun sn x => if x ∈ sn then sn else sn ++ [x]) []) ↔
      a ∈ xs.dedup := by
    intro a
    rw [seenFold_mem, List.mem_dedup]
    simp
  exact ((List.perm_ext_iff_of_nodup h1 (List.nodup_dedup xs)).mpr h2).length_eq

theorem applyUpdateItem_map_id (emps : List Employee) (it : UpdateItem) :
    (applyUpdateItem emps it).map Employee.id = emps.map Employee.id := by
  unfold applyUpdateItem
  induction emps with
  | nil => rfl
  | cons e es ih =>
    simp only [List.map_cons, ih]
    congr 1
    split <;> rfl

theorem applyUpdates_map_id (items : List UpdateItem) : ∀ emps : List Employee,
    (applyUpdates emps items).map Employee.id = emps.map Employee.id := by
  induction items with
  | nil => intro emps; rfl
  | cons it items ih =>
    intro emps
    unfold applyUpdates
    simp only [List.foldl_cons]
    have := ih (applyUpdateItem emps it)
    unfold applyUpdates at this
    rw [this, applyUpdateItem_map_id]

theorem insertIgnore_nil (emps : List Employee) : insertIgnore emps [] = (emps, 0) := rfl

theorem applyUpdates_nil (emps : List Employee) : applyUpdates emps [] = emps := rfl

theorem reconcile_allById (gen : Nat → String) (db : DB) (B : List RawRecord)
    (hnodup : (db.employees.map Employee.id).Nodup)
    (hB : ∀ r ∈ B, jsTrim (r.name.getD "") ≠ "" ∧ jsTrim (r.id.getD "") ≠ "" ∧
      ∃ e ∈ db.employees, e.id = jsTrim (r.id.getD ""))
    (hne : B ≠ []) :
    (reconcileBatch gen db B).1.inserted = 0 ∧
    (reconcileBatch gen db B).1.promoted = 0 ∧
    (reconcileBatch gen db B).1.matchedByName = 0 ∧
    (reconcileBatch gen db B).1.updated = (B.map fun r => jsTrim (r.id.getD "")).dedup.length ∧
    (reconcileBatch gen db B).1.updated + (reconcileBatch gen db B).1.skipped = B.length ∧
    (reconcileBatch gen db B).2.employees.map Employee.id = db.employees.map Employee.id := by
  have hempty : B.isEmpty = false := by
    cases B with
    | nil => exact absurd rfl hne
    | cons a l => rfl
  have hB' : ∀ r ∈ B, jsTrim (r.name.getD "") ≠ "" ∧ jsTrim (r.id.getD "") ≠ "" ∧
      (mapLookup (initState db.employees).byId (jsTrim (r.id.getD ""))).isSome = true := by
    intro r hr
    obtain ⟨h1, h2, e, he, heid⟩ := hB r hr
    refine ⟨h1, h2, ?_⟩
    have hl := buildById_lookup_mem db.employees e hnodup he
    rw [heid] at hl
    simp only [initState]
    rw [hl]
    rfl
  obtain ⟨f1, f2, f3, f4, f5, f6, f7⟩ := classify_fold_allById gen B (initState db.employees) hB'
  have hc : classify gen db.employees B = B.foldl (classifyStep gen) (initState db.employees) := rfl
  have hprom : (classify gen db.employees B).promotions = [] := by rw [hc, f2]; rfl
  have hbyName : (classify gen db.employees B).updatesByName = [] := by rw [hc, f3]; rfl
  have hins : (classify gen db.employees B).inserts = [] := by rw [hc, f4]; rfl
  have hinitUb : (initState db.employees).updatesById.length = 0 := rfl
  have hinitSeen : (initState db.employees).seenIds.length = 0 := rfl
  have hinitSkip : (initState db.employees).skipped = 0 := rfl
  have hseenlen : (B.foldl (classifyStep gen) (initState db.employees)).seenIds.length =
      (B.map fun r => jsTrim (r.id.getD "")).dedup.length := by
    rw [f5]
    have hin : (initState db.employees).seenIds = [] := rfl
    rw [hin, seenFold_length_dedup]
  have hupd : (classify gen db.employees B).updatesById.length =
      (B.map fun r => jsTrim (r.id.getD "")).dedup.length := by
    rw [hc]
    omega
  have hskip : (classify gen db.employees B).updatesById.length +
      (classify gen db.employees B).skipped = B.length := by
    rw [hc]
    omega
  simp only [reconcileBatch, hempty, Bool.false_eq_true, if_false, hprom, hbyName, hins,
    applyUpdates_nil, List.foldl_nil, insertIgnore_nil, List.length_nil, Nat.sub_zero,
    Nat.add_zero]
  refine ⟨?_, ?_, ?_, ?_, ?_, ?_⟩ <;> first
    | trivial
    | exact hupd
    | exact hskip
    | exact applyUpdates_map_id _ _

/-- C2 (amended): for a batch whose records all carry non-empty names and
identifiers already present in the registry, each of two successive
applications reports no inserts, no promotions, no name matches, and
updated equal to the number of distinct-identifier records (the rest
skipped as in-batch duplicates) — in particular the second application
behaves exactly like the first (idempotent re-upload by identifier). -/
theorem C2_idempotent_reupload (gen gen' : Nat → String) (db : DB) (B : List RawRecord)
    (hnodup : (db.employees.map Employee.id).Nodup)
    (hB : ∀ r ∈ B, jsTrim (r.name.getD "") ≠ "" ∧ jsTrim (r.id.getD "") ≠ "" ∧
      ∃ e ∈ db.employees, e.id = jsTrim (r.id.getD ""))
    (hne : B ≠ []) :
    ((reconcileBatch gen db B).1.inserted = 0 ∧
     (reconcileBatch gen db B).1.promoted = 0 ∧
     (reconcileBatch gen db B).1.matchedByName = 0 ∧
     (reconcileBatch gen db B).1.updated = (B.map fun r => jsTrim (r.id.getD "")).dedup.length ∧
     (reconcileBatch gen db B).1.updated + (reconcileBatch gen db B).1.skipped = B.length) ∧
    ((reconcileBatch gen' (reconcileBatch gen db B).2 B).1.inserted = 0 ∧
     (reconcileBatch gen' (reconcileBatch gen db B).2 B).1.promoted = 0 ∧
     (reconcileBatch gen' (reconcileBatch gen db B).2 B).1.matchedByName = 0 ∧
     (reconcileBatch gen' (reconcileBatch gen db B).2 B).1.updated =
       (B.map fun r => jsTrim (r.id.getD "")).dedup.length ∧
     (reconcileBatch gen' (reconcileBatch gen db B).2 B).1.updated +
       (reconcileBatch gen' (reconcileBatch gen db B).2 B).1.skipped = B.length) := by
  obtain ⟨a1, a2, a3, a4, a5, hids⟩ := reconcile_allById gen db B hnodup hB hne
  have hnodup2 : ((reconcileBatch gen db B).2.employees.map Employee.id).Nodup := by
    rw [hids]
    exact hnodup
  have hB2 : ∀ r ∈ B, jsTrim (r.name.getD "") ≠ "" ∧ jsTrim (r.id.getD "") ≠ "" ∧
      ∃ e ∈ (reconcileBatch gen db B).2.employees, e.id = jsTrim (r.id.getD "") := by
    intro r hr
    obtain ⟨h1', h2', e, he, heid⟩ := hB r hr
    refine ⟨h1', h2', ?_⟩
    have hmm : jsTrim (r.id.getD "") ∈ (reconcileBatch gen db B).2.employees.map Employee.id := by
      rw [hids]
      exact heid ▸ List.mem_map_of_mem Employee.id he
    obtain ⟨e', he', heq⟩ := List.mem_map.mp hmm
    exact ⟨e', he', heq⟩
  obtain ⟨b1, b2, b3, b4, b5, -⟩ :=
    reconcile_allById gen' (reconcileBatch gen db B).2 B hnodup2 hB2 hne
  exact ⟨⟨a1, a2, a3, a4, a5⟩, ⟨b1, b2, b3, b4, b5⟩⟩

/-- C2 counterexample: every record of the batch carries an identifier and a
non-empty name, yet on the second application the single record is matched
by name to the pre-existing non-manual employee `real-1` instead of being
classified update-by-id: updated is 0 (not the number of distinct-identifier
records, 1) and matchedByName is 1. -/
theorem C2_counterexample :
    jsTrim ((some "x" : Option String).getD "") ≠ "" ∧
    jsTrim ((some "Bob" : Option String).getD "") ≠ "" ∧
    (reconcileBatch (fun n => "manual-h" ++ toString n)
      (reconcileBatch (fun n => "manual-g" ++ toString n)
        ⟨[⟨"real-1", "Bob", none, none, false⟩], []⟩
        [⟨some "x", some "Bob", none, none, none⟩]).2
      [⟨some "x", some "Bob", none, none, none⟩]).1.updated = 0 ∧
    (reconcileBatch (fun n => "manual-h" ++ toString n)
      (reconcileBatch (fun n => "manual-g" ++ toString n)
        ⟨[⟨"real-1", "Bob", none, none, false⟩], []⟩
        [⟨some "x", some "Bob", none, none, none⟩]).2
      [⟨some "x", some "Bob", none, none, none⟩]).1.matchedByName = 1 := by
  decide

theorem C2_idempotent_reupload_witness :
    (([⟨"a", "Al", none, none, false⟩, ⟨"b", "Bo", none, none, true⟩] : List Employee).map
      Employee.id).Nodup ∧
    ([(⟨some "a", some "Alice", none, none, none⟩ : RawRecord),
      ⟨some "b", some "Bo", none, none, some false⟩,
      ⟨some "a", some "Dup", none, none, none⟩] ≠ []) ∧
    ((reconcileBatch (fun n => "manual-h" ++ toString n)
      (reconcileBatch (fun n => "manual-g" ++ toString n)
        ⟨[⟨"a", "Al", none, none, false⟩, ⟨"b", "Bo", none, none, true⟩], []⟩
        [⟨some "a", some "Alice", none, none, none⟩,
         ⟨some "b", some "Bo", none, none, some false⟩,
         ⟨some "a", some "Dup", none, none, none⟩]).2
      [⟨some "a", some "Alice", none, none, none⟩,
       ⟨some "b", some "Bo", none, none, some false⟩,
       ⟨some "a", some "Dup", none, none, none⟩]).1.inserted = 0 ∧
     (reconcileBatch (fun n => "manual-h" ++ toString n)
      (reconcileBatch (fun n => "manual-g" ++ toString n)
        ⟨[⟨"a", "Al", none, none, false⟩, ⟨"b", "Bo", none, none, true⟩], []⟩
        [⟨some "a", some "Alice", none, none, none⟩,
         ⟨some "b", some "Bo", none, none, some false⟩,
         ⟨some "a", some "Dup", none, none, none⟩]).2
      [⟨some "a", some "Alice", none, none, none⟩,
       ⟨some "b", some "Bo", none, none, some false⟩,
       ⟨some "a", some "Dup", none, none, none⟩]).1.updated =
       (([(⟨some "a", some "Alice", none, none, none⟩ : RawRecord),
          ⟨some "b", some "Bo", none, none, some false⟩,
          ⟨some "a", some "Dup", none, none, none⟩].map
            fun r => jsTrim (r.id.getD "")).dedup).length) :=
  ⟨by decide, by decide,
   (C2_idempotent_reupload (fun n => "manual-g" ++ toString n)
      (fun n => "manual-h" ++ toString n)
      ⟨[⟨"a", "Al", none, none, false⟩, ⟨"b", "Bo", none, none, true⟩], []⟩
      [⟨some "a", some "Alice", none, none, none⟩,
       ⟨some "b", some "Bo", none, none, some false⟩,
       ⟨some "a", some "Dup", none, none, none⟩]
      (by decide) (by decide) (by decide)).2.elim
     fun b1 rest => ⟨b1, rest.2.2.1⟩⟩
